import Mathlib

/-!
# Verification of the DataGrid reactive state/render engine

A shallow embedding, in Lean 4, of the DataGrid repository's engine:
the `EventBus` (src/core/EventBus.js), the `TableState` store, the
`GroupManager` aggregation engine (src/modules/GroupManager.js), the
`RowManager` (src/modules/RowManager.js) and the numeric/equality
helpers (src/utils/helpers.js).  JavaScript values are modelled by the
inductive type `JVal`; JavaScript numbers are idealised as rationals
(the engine performs only +, /, min, max on them), with the distinguished
`vNaN` value kept separate.  String-to-number coercion (`Number(s)` and
`parseFloat(s)`) is modelled on the plain decimal fragment: an optional
sign, decimal digits, an optional fractional part — no exponents,
hexadecimal, `Infinity`, or surrounding whitespace, which the grid's data
paths do not exercise.  Aggregate inputs are primitive cell values, so
`Number`/`parseFloat` coercion of arrays and objects is modelled as NaN.
-/

namespace DataGrid

/-- A JavaScript value: `null`, `undefined`, `NaN`, booleans, (non-NaN)
numbers idealised as rationals, strings, arrays, and plain objects given
as association lists of fields (all objects the engine builds have
pairwise distinct keys). -/
inductive JVal where
  | vNull
  | vUndef
  | vNaN
  | vBool (b : Bool)
  | vNum (q : ℚ)
  | vStr (s : String)
  | vArr (elems : List JVal)
  | vObj (fields : List (String × JVal))

/-- JavaScript strict equality `===` on the modelled values.  `NaN` is not
`===` to anything (itself included).  Distinct arrays/objects compare by
reference; in the pure model every composite literal denotes a distinct
object, so `===` on composites is modelled as `false` (the engine only
applies `===` to primitive ids and scalar cell values). -/
def strictEq : JVal → JVal → Bool
  | .vNull, .vNull => true
  | .vUndef, .vUndef => true
  | .vBool a, .vBool b => a == b
  | .vNum a, .vNum b => a == b
  | .vStr a, .vStr b => a == b
  | _, _ => false

/-- Field lookup on a JavaScript object (association list); a missing key
reads as `undefined`. -/
def objGet : List (String × JVal) → String → JVal
  | [], _ => .vUndef
  | (k, v) :: rest, key => if k == key then v else objGet rest key

/-- Field write on a JavaScript object: overwrite in place if the key is
present (keeping its position, as JS object spread/assignment does),
otherwise append the new key at the end. -/
def objSet : List (String × JVal) → String → JVal → List (String × JVal)
  | [], key, v => [(key, v)]
  | (k, w) :: rest, key, v =>
      if k == key then (k, v) :: rest else (k, w) :: objSet rest key v

/-- JavaScript truthiness of a value. -/
def truthy : JVal → Bool
  | .vNull => false
  | .vUndef => false
  | .vNaN => false
  | .vBool b => b
  | .vNum q => !(q == 0)
  | .vStr s => !(s == "")
  | .vArr _ => true
  | .vObj _ => true

mutual

/-- Embedding of `deepEqual` from src/utils/helpers.js.  The source first tests
`a === b`, rules out `null`, compares `typeof`, compares primitives with
`===`, distinguishes arrays from plain objects, then recurses: arrays by
index after a length check, objects by comparing key counts and then every
key of `a` against `b`'s value for that key.  On the modelled values this
collapses to: structural comparison for composites (element-wise for
arrays, key-lookup-wise for objects) and `===` for everything else. -/
def deepEqual : JVal → JVal → Bool
  | .vArr as, .vArr bs => as.length == bs.length && deepEqualList as bs
  | .vObj fa, .vObj fb => fa.length == fb.length && deepEqualFields fa fb
  | a, b => strictEq a b

/-- Embedding of `a.every((item, index) => deepEqual(item, b[index]))`: element-wise
comparison; an out-of-range index reads as `undefined`. -/
def deepEqualList : List JVal → List JVal → Bool
  | [], _ => true
  | x :: xs, [] => deepEqual x .vUndef && deepEqualList xs []
  | x :: xs, y :: ys => deepEqual x y && deepEqualList xs ys

/-- Embedding of `keysA.every(key => deepEqual(a[key], b[key]))`: each field of `a`
compared against `b`'s value for the same key. -/
def deepEqualFields : List (String × JVal) → List (String × JVal) → Bool
  | [], _ => true
  | (k, v) :: rest, fb => deepEqual v (objGet fb k) && deepEqualFields rest fb

end

/-- Numeric value of a list of decimal digit characters. -/
def digitsVal (cs : List Char) : Nat :=
  cs.foldl (fun acc c => acc * 10 + (c.toNat - 48)) 0

/-- Longest decimal-literal prefix of a character list: optional sign,
integer digits, optional `.` plus fraction digits; at least one digit must
be present.  Returns the parsed rational and the unconsumed suffix. -/
def parseDecLead (cs : List Char) : Option (ℚ × List Char) :=
  let signed : ℚ × List Char :=
    match cs with
    | '-' :: t => (-1, t)
    | '+' :: t => (1, t)
    | _ => (1, cs)
  let ip := signed.2.takeWhile Char.isDigit
  let cs2 := signed.2.dropWhile Char.isDigit
  let fraction : List Char × List Char :=
    match cs2 with
    | '.' :: t => (t.takeWhile Char.isDigit, t.dropWhile Char.isDigit)
    | _ => ([], cs2)
  if ip.isEmpty && fraction.1.isEmpty then none
  else
    some (signed.1 * ((digitsVal ip : ℚ) +
      (digitsVal fraction.1 : ℚ) / ((10 : ℚ) ^ fraction.1.length)), fraction.2)

/-- Embedding of `parseFloat(s)` on the decimal fragment: the value of the longest
numeric prefix, or NaN (`none`) when the string starts with none. -/
def parseFloatJS (s : String) : Option ℚ :=
  (parseDecLead s.toList).map Prod.fst

/-- Embedding of `Number(s)` on the decimal fragment: `""` converts to `0`; otherwise
the whole string must be a numeric literal, else NaN (`none`). -/
def numberJS (s : String) : Option ℚ :=
  if s == "" then some 0
  else
    match parseDecLead s.toList with
    | some (q, []) => some q
    | _ => none

/-- The `Number(v)` coercion used by the global `isNaN`: `null → 0`,
`undefined → NaN`, booleans to 0/1, strings via `numberJS`; composites are
outside the modelled fragment and coerce to NaN. -/
def numberCoerce : JVal → Option ℚ
  | .vNum q => some q
  | .vNaN => none
  | .vNull => some 0
  | .vUndef => none
  | .vBool b => some (if b then 1 else 0)
  | .vStr s => numberJS s
  | .vArr _ => none
  | .vObj _ => none

/-- The global `isNaN(v)` (coercing): true iff `Number(v)` is NaN. -/
def jsIsNaN (v : JVal) : Bool :=
  (numberCoerce v).isNone

/-- Embedding of `parseFloat(v)` for a non-string argument first stringifies it:
`true`, `false`, `null`, `undefined`, `NaN` have no numeric prefix and
parse to NaN; a (non-NaN) number round-trips. -/
def parseFloatCoerce : JVal → Option ℚ
  | .vNum q => some q
  | .vStr s => parseFloatJS s
  | _ => none

/-- Embedding of `isNaN` applied to an already-numeric value (no coercion).  The model
keeps NaN out of the rational type, and `toNumber` below never produces
NaN, so this is constantly `false` — exactly why the `!isNaN(toNumber(v))`
filters inside `min`/`max` in src/utils/helpers.js keep every element. -/
def numIsNaN (_ : ℚ) : Bool := false

/-- Embedding of `toNumber(value)` from src/utils/helpers.js with the default
`defaultValue = 0`: `null`, `undefined` and `''` give 0; otherwise
`parseFloat`, with NaN replaced by 0. -/
def toNumber (value : JVal) : ℚ :=
  if strictEq value .vNull || strictEq value .vUndef ||
      strictEq value (.vStr "") then 0
  else
    match parseFloatCoerce value with
    | some q => q
    | none => 0

/-- Embedding of `sum(values)` from src/utils/helpers.js:
`values.reduce((acc, val) => acc + toNumber(val), 0)`. -/
def sumQ (values : List JVal) : ℚ :=
  values.foldl (fun acc v => acc + toNumber v) 0

/-- Embedding of `sum` as a JavaScript value. -/
def jsSum (values : List JVal) : JVal := .vNum (sumQ values)

/-- Embedding of `average(values)` from src/utils/helpers.js: 0 on the empty list,
otherwise `sum(values) / values.length` — the denominator is the length of
the whole input list, not the number of numeric entries. -/
def jsAverage (values : List JVal) : JVal :=
  if values.length == 0 then .vNum 0
  else .vNum (sumQ values / (values.length : ℚ))

/-- Embedding of `min(values)` from src/utils/helpers.js: filter by
`!isNaN(toNumber(v))` (which keeps everything, `toNumber` never returning
NaN), then `Math.min(...nums.map(toNumber))`, with 0 for the empty list. -/
def jsMin (values : List JVal) : JVal :=
  let nums := values.filter (fun v => !numIsNaN (toNumber v))
  match nums.map toNumber with
  | [] => .vNum 0
  | q :: qs => .vNum (qs.foldl Min.min q)

/-- Embedding of `max(values)` from src/utils/helpers.js, symmetric to `jsMin`. -/
def jsMax (values : List JVal) : JVal :=
  let nums := values.filter (fun v => !numIsNaN (toNumber v))
  match nums.map toNumber with
  | [] => .vNum 0
  | q :: qs => .vNum (qs.foldl Max.max q)

/-- Embedding of `GroupManager._calculateAggregate(aggregateType, values, rows)` for the
named (string-tagged) aggregates; the string switch defaults to `sum`.
Custom function aggregates are configuration outside the engine and are
not modelled. -/
def calculateAggregate (aggregateType : String) (values : List JVal) : JVal :=
  if aggregateType == "sum" then jsSum values
  else if aggregateType == "average" || aggregateType == "avg" then jsAverage values
  else if aggregateType == "min" then jsMin values
  else if aggregateType == "max" then jsMax values
  else if aggregateType == "count" then .vNum (values.length : ℚ)
  else if aggregateType == "first" then values.headD .vUndef
  else if aggregateType == "last" then values.getLastD .vUndef
  else jsSum values

/-! ## The TableState store (unnamed TableState source file) and EventBus state

A row is a JavaScript object, kept as an association list of fields.
`deepClone` on the modelled values is the identity (the model is pure);
aliasing of row objects, which `deepClone` exists to sever, is treated
separately by the heap model further below. -/

/-- A row object: field name to value. -/
abbrev Row := List (String × JVal)

/-- A column descriptor, restricted to what the engine's state and
aggregation paths read: the field key and the optional named aggregate
tag.  Columns are identified by their `data` key (the source sets
`_id = col.id || col.data`; the modelled configurations give no separate
`id`).  Cascade callbacks, formatters and validators are host-supplied
configuration outside the engine and are not modelled; with no cascade
configured, `_triggerCascadeUpdate` is a no-op. -/
structure Column where
  data : String
  aggregate : Option String

/-- Payloads of the events the modelled operations emit. -/
inductive EvPayload where
  | cellChange (rowId : JVal) (rowIndex : Nat) (columnName : String)
      (oldValue newValue : JVal) (row : Row)
  | rowChange (rowId : JVal) (rowIndex : Nat) (columnName : String)
      (row : Row) (dirtyColumns : List String)
  | dataChange (source : String) (data : List Row)
      (updatedRows : Option (List JVal))
  | stateChange (property : String) (groupId : Option JVal)
  | rowAdd (row : Row) (index : Nat)
  | rowDelete (rowId : JVal) (row : Row) (index : Nat)
  | rowTotalChange (rowId : JVal) (oldValue newValue : JVal)

/-- An event as it travels through the `EventBus`: name and payload. -/
structure BusEvent where
  name : String
  payload : EvPayload

/-- One group bucket, as built by `TableState._computeGroups`:
`{ id: groupKey, label: groupKey, rows: [], totals: {} }`.  The source
stores references to the row objects in `rows`; rows are identified by
their stable `_id` and mutated in place, so the model records the member
`_id`s and dereferences them against the current data when totals are
computed — exactly what reading through the stored references yields. -/
structure Group where
  id : JVal
  label : JVal
  rows : List JVal
  totals : List (String × JVal)

/-- The configuration fields the modelled paths consult.  `groupBy` is
modelled as a field name (the source also accepts a key function, which is
host-supplied configuration). -/
structure Config where
  enableGrouping : Bool
  groupBy : Option String
  enableRowTotals : Bool

/-- The `TableState` internal state together with its `EventBus`'s
batching state.  `dirtyRows` models a JS `Set` (insertion order, no
duplicates), `dirtyColumns` a JS `Map` of `Set`s.  `groupedData` pairs
each group's string object-key with the group (a JS object keyed by the
group key); `none` models the `null` it holds before grouping.
`nextId` is the supply for `generateId()` (the source draws timestamped
random ids; the model draws from a counter — all theorems that need
stable ids require rows to carry their own).  The computed-value cache
(`computedCache`) is write-only in the modelled paths and omitted. -/
structure TState where
  data : List Row
  originalData : List Row
  columns : List Column
  dirtyRows : List JVal
  dirtyColumns : List (JVal × List String)
  groupedData : Option (List (String × Group))
  ungroupedRows : List JVal
  infoRows : List JVal
  config : Config
  isBatching : Bool
  batchQueue : List BusEvent
  nextId : Nat

/-- Embedding of `EventBus.emit`: while batching, the event is appended to the pending
queue and nothing is dispatched; otherwise it is dispatched (the second
component lists the events delivered to subscribers, in order). -/
def busEmit (st : TState) (e : BusEvent) : TState × List BusEvent :=
  if st.isBatching then ({ st with batchQueue := st.batchQueue ++ [e] }, [])
  else (st, [e])

/-- Embedding of `EventBus.startBatch`: sets the flag and clears the queue. -/
def startBatch (st : TState) : TState :=
  { st with isBatching := true, batchQueue := [] }

/-- Embedding of `eventMap.set(event, data)` for a JS `Map`: overwrite the value if the
key is present (the key keeps its original insertion position), else
append. -/
def mapUpsert (m : List (String × EvPayload)) (k : String) (v : EvPayload) :
    List (String × EvPayload) :=
  if m.any (fun kv => kv.1 == k) then
    m.map (fun kv => if kv.1 == k then (kv.1, v) else kv)
  else m ++ [(k, v)]

/-- The deduplication loop of `EventBus.endBatch`: fold the queue into a
map keyed by the event *name* alone, keeping the latest payload per name.
The surviving (name, payload) pairs are in first-enqueue order of the
names. -/
def dedupeQueue (queue : List BusEvent) : List (String × EvPayload) :=
  queue.foldl (fun m e => mapUpsert m e.name e.payload) []

/-- Embedding of `EventBus.endBatch`: clear the batching flag, deduplicate the queue by
event name keeping the latest payload, dispatch the survivors in map
order, clear the queue. -/
def endBatch (st : TState) : TState × List BusEvent :=
  let st1 := { st with isBatching := false }
  let survivors := (dedupeQueue st1.batchQueue).map (fun kv => BusEvent.mk kv.1 kv.2)
  ({ st1 with batchQueue := [] }, survivors)

/-- Embedding of `generateId()` stand-in: a fresh (truthy) string id from the supply. -/
def genId (n : Nat) : JVal := .vStr ("et_" ++ toString n)

/-- Normalize one row, as `TableState._normalizeData` does per row:
`{ ...row, _id: row._id || row.id || generateId(), _index: index,
_type: row._type || "data" }`.  Returns the row and the remaining id
supply. -/
def normalizeRow (supply : Nat) (idx : Nat) (row : Row) : Row × Nat :=
  let idv := objGet row "_id"
  let withId : JVal × Nat :=
    if truthy idv then (idv, supply)
    else
      let idv2 := objGet row "id"
      if truthy idv2 then (idv2, supply) else (genId supply, supply + 1)
  let tv := objGet row "_type"
  let r1 := objSet row "_id" withId.1
  let r2 := objSet r1 "_index" (.vNum (idx : ℚ))
  let r3 := objSet r2 "_type" (if truthy tv then tv else .vStr "data")
  (r3, withId.2)

/-- Embedding of `TableState._normalizeData` over a whole data array, threading the id
supply and the running index. -/
def normalizeGo (supply idx : Nat) : List Row → List Row × Nat
  | [] => ([], supply)
  | r :: rest =>
    let (r', s') := normalizeRow supply idx r
    let (rs, s'') := normalizeGo s' (idx + 1) rest
    (r' :: rs, s'')

/-- Embedding of `TableState._normalizeData(data)`. -/
def normalizeData (supply : Nat) (data : List Row) : List Row × Nat :=
  normalizeGo supply 0 data

/-- JS `Set.has` (SameValueZero on the primitive ids the store uses). -/
def setHas (s : List JVal) (v : JVal) : Bool := s.any (fun w => strictEq w v)

/-- JS `Set.add`: append if absent, insertion order preserved. -/
def setAdd (s : List JVal) (v : JVal) : List JVal :=
  if setHas s v then s else s ++ [v]

/-- Embedding of `dirtyColumns.get(rowId)` (`Array.from` of the set; `[]` if absent). -/
def dirtyColsGet (m : List (JVal × List String)) (k : JVal) : List String :=
  match m.find? (fun kv => strictEq kv.1 k) with
  | some kv => kv.2
  | none => []

/-- The `dirtyColumns` bookkeeping of `updateCell`: ensure the row's set
exists, then add the column name to it. -/
def dirtyColsAdd (m : List (JVal × List String)) (k : JVal) (col : String) :
    List (JVal × List String) :=
  if m.any (fun kv => strictEq kv.1 k) then
    m.map (fun kv =>
      if strictEq kv.1 k then
        (kv.1, if kv.2.contains col then kv.2 else kv.2 ++ [col])
      else kv)
  else m ++ [(k, [col])]

/-- The string a JavaScript primitive becomes when used as an object key
(`groups[groupKey]`).  The modelled grids group by string keys; numeric
keys print their decimal value. -/
def groupKeyStr : JVal → String
  | .vStr s => s
  | .vNum q => if q.den == 1 then toString q.num else toString q
  | .vBool b => if b then "true" else "false"
  | .vNaN => "NaN"
  | .vNull => "null"
  | .vUndef => "undefined"
  | .vArr _ => "[array]"
  | .vObj _ => "[object]"

/-- Append a row id to its group's member list, creating the group bucket
(`{ id, label, rows: [], totals: {} }`) at the end on first occurrence of
the key — JS object insertion order. -/
def pushToGroup (groups : List (String × Group)) (key : JVal) (rid : JVal) :
    List (String × Group) :=
  let k := groupKeyStr key
  if groups.any (fun g => g.1 == k) then
    groups.map (fun g =>
      if g.1 == k then (g.1, { g.2 with rows := g.2.rows ++ [rid] }) else g)
  else groups ++ [(k, { id := key, label := key, rows := [rid], totals := [] })]

/-- Embedding of `TableState._computeGroups`: with no `groupBy`, `groupedData`
becomes `null`; otherwise iterate the data rows in order, collecting
`infoRow`s separately, skipping other non-`data` rows, sending rows with a
`null`/`undefined`/`""` key to the ungrouped bucket, and appending every
other row to its key's group. -/
def computeGroups (st : TState) : TState :=
  match st.config.groupBy with
  | none => { st with groupedData := none }
  | some gb =>
    let folded := st.data.foldl
      (fun (acc : List (String × Group) × List JVal × List JVal) row =>
        let rid := objGet row "_id"
        if strictEq (objGet row "_type") (.vStr "infoRow") then
          (acc.1, acc.2.1, acc.2.2 ++ [rid])
        else if !(strictEq (objGet row "_type") (.vStr "data")) then acc
        else
          let key := objGet row gb
          if strictEq key .vNull || strictEq key .vUndef ||
              strictEq key (.vStr "") then
            (acc.1, acc.2.1 ++ [rid], acc.2.2)
          else (pushToGroup acc.1 key rid, acc.2))
      ([], [], [])
    { st with groupedData := some folded.1, ungroupedRows := folded.2.1,
              infoRows := folded.2.2 }

/-- Embedding of `TableState.setData(data)`: snapshot the raw argument as
`originalData` (a deep clone), replace `data` with its normalization,
clear `dirtyRows` — and only `dirtyRows`: `dirtyColumns` is left as is —
recompute groups when grouping is configured, and emit `data:change`. -/
def setData (st : TState) (data : List Row) : TState × List BusEvent :=
  let normalized := normalizeData st.nextId data
  let st1 := { st with originalData := data, data := normalized.1,
                       nextId := normalized.2, dirtyRows := [] }
  let st2 :=
    if st1.config.enableGrouping && st1.config.groupBy.isSome then
      computeGroups st1
    else st1
  busEmit st2 { name := "data:change",
                payload := .dataChange "setData" st2.data none }

/-- Embedding of `TableState.getData()` (the deep clone is a value copy here). -/
def getData (st : TState) : List Row := st.data

/-- Embedding of `TableState.getRow(rowId)`: first row whose `_id` is `===` the id,
`null` (`none`) otherwise. -/
def getRow (st : TState) (rowId : JVal) : Option Row :=
  st.data.find? (fun r => strictEq (objGet r "_id") rowId)

/-- Embedding of `TableState.getDirtyRows()`: the data rows whose `_id` is in the dirty
set, in data order. -/
def getDirtyRows (st : TState) : List Row :=
  st.data.filter (fun r => setHas st.dirtyRows (objGet r "_id"))

/-- Embedding of `TableState.isRowDirty(rowId)`. -/
def isRowDirty (st : TState) (rowId : JVal) : Bool :=
  setHas st.dirtyRows rowId

/-- Embedding of `TableState.updateCell(rowId, columnName, value, options)`:
no-op when the row is absent; no-op when the new value `deepEqual`s the
old; otherwise write the value, add the row to `dirtyRows` and the column
to its `dirtyColumns` set, emit `cell:change` then `row:change`.  The
`skipCascade` option only gates `_triggerCascadeUpdate`, which does
nothing without a configured cascade callback. -/
def updateCell (st : TState) (rowId : JVal) (columnName : String)
    (value : JVal) ( skipCascade : Bool) : TState × List BusEvent :=
  match st.data.findIdx? (fun r => strictEq (objGet r "_id") rowId) with
  | none => (st, [])
  | some i =>
    let row := st.data.getD i []
    let oldValue := objGet row columnName
    if deepEqual oldValue value then (st, [])
    else
      let row' := objSet row columnName value
      let dc := dirtyColsAdd st.dirtyColumns rowId columnName
      let st1 := { st with data := st.data.set i row',
                           dirtyRows := setAdd st.dirtyRows rowId,
                           dirtyColumns := dc }
      let e1 := busEmit st1
        { name := "cell:change",
          payload := .cellChange rowId i columnName oldValue value row' }
      let e2 := busEmit e1.1
        { name := "row:change",
          payload := .rowChange rowId i columnName row' (dirtyColsGet dc rowId) }
      (e2.1, e1.2 ++ e2.2)

/-- One entry of a `batchUpdate` call. -/
structure CellUpdate where
  rowId : JVal
  columnName : String
  value : JVal

/-- Embedding of `TableState.batchUpdate(updates)`: start an event-bus batch, apply
every update through `updateCell` with cascade suppressed (their events go
to the queue), run `_computeAllCascades` (a no-op in the source), end the
batch — dispatching the deduplicated queue — then emit one `data:change`
outside the batch. -/
def batchUpdate (st : TState) (updates : List CellUpdate) :
    TState × List BusEvent :=
  let st1 := startBatch st
  let applied := updates.foldl
    (fun (acc : TState × List BusEvent) u =>
      let r := updateCell acc.1 u.rowId u.columnName u.value true
      (r.1, acc.2 ++ r.2))
    (st1, [])
  let ended := endBatch applied.1
  let final := busEmit ended.1
    { name := "data:change",
      payload := .dataChange "batchUpdate" ended.1.data
        (some (updates.map (fun u => u.rowId))) }
  (final.1, applied.2 ++ ended.2 ++ final.2)

/-- Embedding of `TableState.clearDirty()`: empty both dirty structures and snapshot
the current data as the new baseline. -/
def clearDirty (st : TState) : TState :=
  { st with dirtyRows := [], dirtyColumns := [], originalData := st.data }

/-- Embedding of `TableState.revertChanges()`: `setData(originalData)`. -/
def revertChanges (st : TState) : TState × List BusEvent :=
  setData st st.originalData

/-! ## GroupManager (src/modules/GroupManager.js) -/

/-- Embedding of `TableState.getColumn(columnId)` restricted to the modelled
configurations: columns are found by their `data` key (`_id` defaults to
it), and the synthetic `_rowTotal` column only exists when row totals are
enabled — the modelled grids read ordinary columns. -/
def getColumn (st : TState) (columnId : String) : Option Column :=
  st.columns.find? (fun c => c.data == columnId)

/-- Dereference a group's member list against the current data: the
source stores references to the row objects, which the model identifies
by their stable `_id`. -/
def derefRows (st : TState) (ids : List JVal) : List Row :=
  ids.filterMap (fun rid => st.data.find? (fun r => strictEq (objGet r "_id") rid))

/-- Embedding of `GroupManager.calculateRowTotal(row)`: over the columns that declare
an aggregate (other than `_rowTotal` itself), add `Number(value)` for
every value that is not `null`/`undefined` and not NaN-coercing. -/
def calculateRowTotal (st : TState) (row : Row) : ℚ :=
  st.columns.foldl
    (fun acc col =>
      match col.aggregate with
      | none => acc
      | some _ =>
        if col.data == "_rowTotal" then acc
        else
          let value := objGet row col.data
          if !(strictEq value .vNull) && !(strictEq value .vUndef) &&
              !jsIsNaN value then
            acc + (numberCoerce value).getD 0
          else acc)
    0

/-- The per-group body of `GroupManager.recalculateTotals`: filter the
member rows to `_type === "data"`, and for every column with an aggregate
(except `_rowTotal`) aggregate the member values that are not
`null`/`undefined` and not NaN-coercing; when row totals are enabled, add
a `_rowTotal` entry summing the numeric column totals. -/
def recalcGroup (st : TState) (g : Group) : Group :=
  let dataRows := (derefRows st g.rows).filter
    (fun r => strictEq (objGet r "_type") (.vStr "data"))
  let totals := st.columns.foldl
    (fun (ts : List (String × JVal)) col =>
      match col.aggregate with
      | none => ts
      | some agg =>
        if col.data == "_rowTotal" then ts
        else
          let values := (dataRows.map (fun r => objGet r col.data)).filter
            (fun v => !(strictEq v .vNull) && !(strictEq v .vUndef) &&
              !jsIsNaN v)
          ts ++ [(col.data, calculateAggregate agg values)])
    []
  let totals2 :=
    if st.config.enableRowTotals then
      let groupRowTotal := st.columns.foldl
        (fun (acc : ℚ) col =>
          match col.aggregate with
          | none => acc
          | some _ =>
            if col.data == "_rowTotal" then acc
            else
              match totals.find? (fun kv => kv.1 == col.data) with
              | some kv => acc + toNumber kv.2
              | none => acc)
        0
      totals ++ [("_rowTotal", .vNum groupRowTotal)]
    else totals
  { g with totals := totals2 }

/-- Embedding of `GroupManager.recalculateTotals(groupId)`: nothing when `groupedData`
is `null`; with a truthy `groupId`, only that group — and only if the key
exists in `groupedData` — otherwise every group; finally a
`state:change` for `groupTotals` is emitted.  The membership partition is
never recomputed here. -/
def recalculateTotals (st : TState) (groupId : Option JVal) :
    TState × List BusEvent :=
  match st.groupedData with
  | none => (st, [])
  | some groups =>
    let keys : List String :=
      match groupId with
      | some gid =>
        if truthy gid then
          if groups.any (fun g => g.1 == groupKeyStr gid) then [groupKeyStr gid]
          else []
        else groups.map (fun g => g.1)
      | none => groups.map (fun g => g.1)
    let groups' := groups.map
      (fun g => if keys.contains g.1 then (g.1, recalcGroup st g.2) else g)
    let st1 := { st with groupedData := some groups' }
    busEmit st1
      { name := "state:change",
        payload := .stateChange "groupTotals" groupId }

/-- Embedding of `GroupManager.updateRowTotal(rowId)`: recompute `row._rowTotal` in
place and emit a row-total-change event when it moved (the source emits it
under `TableEvents.ROW_TOTAL_CHANGE`, a key the event-name table does not
define, so the event name is the string `"undefined"`). -/
def updateRowTotal (st : TState) (rowId : JVal) : TState × List BusEvent :=
  if !st.config.enableRowTotals then (st, [])
  else
    match st.data.findIdx? (fun r => strictEq (objGet r "_id") rowId) with
    | none => (st, [])
    | some i =>
      let row := st.data.getD i []
      if strictEq (objGet row "_type") (.vStr "data") then
        let oldTotal := objGet row "_rowTotal"
        let newTotal : JVal := .vNum (calculateRowTotal st row)
        let row' := objSet row "_rowTotal" newTotal
        let st1 := { st with data := st.data.set i row' }
        if strictEq oldTotal newTotal then (st1, [])
        else
          busEmit st1
            { name := "undefined",
              payload := .rowTotalChange rowId oldTotal newTotal }
      else (st, [])

/-- Embedding of `GroupManager.recalculateRowTotals()`: stamp `_rowTotal` on every
`data` row. -/
def recalculateRowTotals (st : TState) : TState :=
  if !st.config.enableRowTotals then st
  else
    { st with data := st.data.map (fun row =>
        if strictEq (objGet row "_type") (.vStr "data") then
          objSet row "_rowTotal" (.vNum (calculateRowTotal st row))
        else row) }

/-- The `CELL_CHANGE` listener installed by `GroupManager._setupListeners`:
when the changed column declares an aggregate, update the row total (if
enabled) and recompute totals for the single group obtained by applying
the grouping key to the *updated* row — no repartition of `groupedData`
takes place on any cell change, key column included. -/
def onCellChange (st : TState) (rowId : JVal) (columnName : String) :
    TState × List BusEvent :=
  let column := getColumn st columnName
  let hasAgg := match column with
    | some c => c.aggregate.isSome
    | none => false
  let step1 :=
    if st.config.enableRowTotals && hasAgg then updateRowTotal st rowId
    else (st, [])
  if hasAgg && step1.1.config.enableGrouping then
    match getRow step1.1 rowId with
    | some row =>
      let groupId : JVal :=
        match step1.1.config.groupBy with
        | some gb => objGet row gb
        | none => .vUndef
      let step2 := recalculateTotals step1.1 (some groupId)
      (step2.1, step1.2 ++ step2.2)
    | none => step1
  else step1

/-- The `DATA_CHANGE` listener installed by
`GroupManager._setupListeners`: recompute all row totals and all group
totals (as configuration enables them). -/
def onDataChange (st : TState) : TState × List BusEvent :=
  let st1 := if st.config.enableRowTotals then recalculateRowTotals st else st
  if st1.config.enableGrouping then recalculateTotals st1 none
  else (st1, [])

/-- Deliver a list of dispatched events to the `GroupManager` listeners,
in order, collecting any events the listeners emit in turn. -/
def gmDispatch (st : TState) (events : List BusEvent) :
    TState × List BusEvent :=
  events.foldl
    (fun (acc : TState × List BusEvent) e =>
      let stepped :=
        if e.name == "cell:change" then
          match e.payload with
          | .cellChange rid _ col _ _ _ => onCellChange acc.1 rid col
          | _ => (acc.1, [])
        else if e.name == "data:change" then onDataChange acc.1
        else (acc.1, [])
      (stepped.1, acc.2 ++ stepped.2))
    (st, [])

/-- An `updateCell` with the `GroupManager` subscribed: perform the state
update, then deliver its dispatched events to the listeners. -/
def updateCellWithGM (st : TState) (rowId : JVal) (columnName : String)
    (value : JVal) : TState × List BusEvent :=
  let upd := updateCell st rowId columnName value false
  let gm := gmDispatch upd.1 upd.2
  (gm.1, upd.2 ++ gm.2)

/-- Member-id list of a group, read through `getGroupedData()`. -/
def groupMemberIds (st : TState) (key : String) : List JVal :=
  match st.groupedData with
  | none => []
  | some groups =>
    match groups.find? (fun g => g.1 == key) with
    | some g => g.2.rows
    | none => []

/-- Totals of a group, read through `getGroupedData()`. -/
def groupTotalsOf (st : TState) (key : String) : List (String × JVal) :=
  match st.groupedData with
  | none => []
  | some groups =>
    match groups.find? (fun g => g.1 == key) with
    | some g => g.2.totals
    | none => []

/-! ## RowManager (src/modules/RowManager.js) -/

/-- The options object of `RowManager.addRow`: `index` wins over
`afterRowId`, which wins over `groupId`; the row type defaults to
`"data"`. -/
structure AddRowOptions where
  index : Option Int := none
  groupId : Option JVal := none
  afterRowId : Option JVal := none
  rtype : String := "data"

/-- Restamp `_index` from a running counter. -/
def restampGo (idx : Nat) : List Row → List Row
  | [] => []
  | r :: rest => objSet r "_index" (.vNum (idx : ℚ)) :: restampGo (idx + 1) rest

/-- Restamp `_index` on every row of a sequence, as the
`data.forEach((row, idx) => row._index = idx)` loops do. -/
def restampIndices (data : List Row) : List Row :=
  restampGo 0 data

/-- Index of the last row satisfying the predicate (the source scans
from the end and breaks at the first hit). -/
def findLastIdx (data : List Row) (p : Row → Bool) : Option Nat :=
  (data.reverse.findIdx? p).map (fun j => data.length - 1 - j)

/-- The `groupId` arm of `addRow`'s insertion choice: insert after the
last row of the group (stamping the group key onto the new row when
`groupBy` is a field name), or append when the group has no rows. -/
def addRowGroupPlacement (data : List Row) (groupBy : Option String)
    (groupIdOpt : Option JVal) (newRow0 : Row) : Nat × Row :=
  match groupIdOpt with
  | some gid =>
    if truthy gid then
      ((match groupBy with
        | some gb =>
          match findLastIdx data (fun r => strictEq (objGet r gb) gid) with
          | some i => i + 1
          | none => data.length
        | none => data.length),
       (match groupBy with
        | some gb => objSet newRow0 gb gid
        | none => newRow0))
    else (data.length, newRow0)
  | none => (data.length, newRow0)

/-- Embedding of `addRow`'s insertion choice: `index` (clamped) wins over a truthy
`afterRowId`, which wins over a truthy `groupId`; the default appends.
A falsy option value falls through to the next arm, as the JS
truthiness chain does. -/
def addRowPlacement (data : List Row) (groupBy : Option String)
    (opts : AddRowOptions) (newRow0 : Row) : Nat × Row :=
  match opts.index with
  | some i => ((max 0 (min i (data.length : Int))).toNat, newRow0)
  | none =>
    match opts.afterRowId with
    | some aid =>
      if truthy aid then
        ((match data.findIdx? (fun r => strictEq (objGet r "_id") aid) with
          | some afterIndex => afterIndex + 1
          | none => data.length), newRow0)
      else addRowGroupPlacement data groupBy opts.groupId newRow0
    | none => addRowGroupPlacement data groupBy opts.groupId newRow0

/-- Embedding of `RowManager.addRow(rowData, options)`: work on a copy of the current
data, build the new row (`{ ...rowData, _id: rowData._id || generateId(),
_type: type }`), pick the insertion index from the options, splice it in,
restamp all indices, hand the whole sequence to `setData`, and emit
`row:add`.  Returns the state, the dispatched events, and the added
row. -/
def addRow (st : TState) (rowData : Row) (opts : AddRowOptions) :
    TState × List BusEvent × Row :=
  let data := getData st
  let withId : JVal × Nat :=
    if truthy (objGet rowData "_id") then (objGet rowData "_id", st.nextId)
    else (genId st.nextId, st.nextId + 1)
  let newRow0 := objSet (objSet rowData "_id" withId.1) "_type" (.vStr opts.rtype)
  let chosen := addRowPlacement data st.config.groupBy opts newRow0
  let data' := restampIndices (data.take chosen.1 ++ [chosen.2] ++ data.drop chosen.1)
  let afterSet := setData { st with nextId := withId.2 } data'
  let newRow := data'.getD chosen.1 []
  let emitted := busEmit afterSet.1
    { name := "row:add", payload := .rowAdd newRow chosen.1 }
  (emitted.1, afterSet.2 ++ emitted.2, newRow)

/-- Embedding of `RowManager.deleteRow(rowId)`: `false` when the id is unknown;
otherwise splice the row out of a copy of the data, restamp indices, hand
the remainder to `setData`, and emit `row:delete`. -/
def deleteRow (st : TState) (rowId : JVal) :
    TState × List BusEvent × Bool :=
  let data := getData st
  match data.findIdx? (fun r => strictEq (objGet r "_id") rowId) with
  | none => (st, [], false)
  | some rowIndex =>
    let deletedRow := data.getD rowIndex []
    let data' := restampIndices (data.take rowIndex ++ data.drop (rowIndex + 1))
    let afterSet := setData st data'
    let emitted := busEmit afterSet.1
      { name := "row:delete", payload := .rowDelete rowId deletedRow rowIndex }
    (emitted.1, afterSet.2 ++ emitted.2, true)

/-! ## EventBus dispatch with live unsubscription (src/core/EventBus.js)

`EventBus.emit` iterates `this._listeners.get(event)` — the live `Set` —
with `forEach`; `off` deletes from that same set.  A handler is modelled
by its identity and the handler ids its callback passes to `off` for the
same event kind while the pass runs; per JS `Set` iteration semantics an
element deleted before being visited is skipped, and one deleted after
being visited is unaffected. -/

/-- A subscriber of one event kind: its identity and the subscriber ids
its callback unsubscribes (via `off`) when it runs. -/
structure Handler where
  id : Nat
  removes : List Nat

/-- Embedding of `Set.forEach` over the subscriber set in subscription order, with the
deletions each invoked callback performs applied to the live set; returns
the ids invoked, in order. -/
def emitLive : List Handler → List Nat → List Nat
  | [], _ => []
  | h :: rest, alive =>
    if alive.contains h.id then
      h.id :: emitLive rest (alive.filter (fun i => !h.removes.contains i))
    else emitLive rest alive

/-- One `emit` pass over the given subscription list (all present in the
set when the pass starts). -/
def emitPass (hs : List Handler) : List Nat :=
  emitLive hs (hs.map (fun h => h.id))

/-! ## Row-object aliasing model

Rows are JavaScript objects handed around by reference.  The heap model
makes the references explicit: the store's `data` array holds addresses
of row objects, `_computeGroups` pushes those same addresses into the
group buckets (`groups[groupKey].rows.push(row)`), while `getData`,
`getRow` and `getDirtyRows` return `deepClone`s — freshly allocated
objects.  `getGroupedData`/`getUngroupedRows` return the internal
structures themselves.  External mutation writes a field of the object at
an address. -/

/-- An address in the row heap. -/
abbrev Addr := Nat

/-- The row heap: allocated objects and the next fresh address. -/
structure RowHeap where
  mem : List (Addr × Row)
  next : Addr

/-- Read the object at an address (empty object if unallocated). -/
def heapGet (h : RowHeap) (a : Addr) : Row :=
  match h.mem.find? (fun kv => kv.1 == a) with
  | some kv => kv.2
  | none => []

/-- Overwrite the object at an address. -/
def heapSet (h : RowHeap) (a : Addr) (r : Row) : RowHeap :=
  { h with mem := h.mem.map (fun kv => if kv.1 == a then (kv.1, r) else kv) }

/-- Allocate a fresh object. -/
def heapAlloc (h : RowHeap) (r : Row) : RowHeap × Addr :=
  ({ mem := h.mem ++ [(h.next, r)], next := h.next + 1 }, h.next)

/-- The aliasing view of the store: `data` as addresses, the group
partition sharing those addresses, and the dirty-id set. -/
structure AliasState where
  heap : RowHeap
  dataRefs : List Addr
  groupedRefs : List (String × List Addr)
  ungroupedRefs : List Addr
  dirtyRows : List JVal

/-- The store's internal rows, as values (what dirty tracking, grouping
and rendering observe). -/
def internalRows (s : AliasState) : List Row :=
  s.dataRefs.map (heapGet s.heap)

/-- Clone a list of row objects: allocate a fresh object per row, as
`deepClone` does.  Returns the new heap and the fresh addresses. -/
def cloneRows (h : RowHeap) (addrs : List Addr) : RowHeap × List Addr :=
  addrs.foldl
    (fun (acc : RowHeap × List Addr) a =>
      let alloc := heapAlloc acc.1 (heapGet h a)
      (alloc.1, acc.2 ++ [alloc.2]))
    (h, [])

/-- Embedding of `getData()` in the aliasing model: `deepClone(this._state.data)` —
fresh objects for every row. -/
def aliasGetData (s : AliasState) : AliasState × List Addr :=
  let cloned := cloneRows s.heap s.dataRefs
  ({ s with heap := cloned.1 }, cloned.2)

/-- Embedding of `getRow(rowId)` in the aliasing model: a `deepClone` of the found
row, or `none`. -/
def aliasGetRow (s : AliasState) (rowId : JVal) : AliasState × Option Addr :=
  match s.dataRefs.find?
      (fun a => strictEq (objGet (heapGet s.heap a) "_id") rowId) with
  | none => (s, none)
  | some a =>
    let alloc := heapAlloc s.heap (heapGet s.heap a)
    ({ s with heap := alloc.1 }, some alloc.2)

/-- Embedding of `getDirtyRows()` in the aliasing model: filter by the dirty set, then
`deepClone` each row. -/
def aliasGetDirtyRows (s : AliasState) : AliasState × List Addr :=
  let picked := s.dataRefs.filter
    (fun a => setHas s.dirtyRows (objGet (heapGet s.heap a) "_id"))
  let cloned := cloneRows s.heap picked
  ({ s with heap := cloned.1 }, cloned.2)

/-- Embedding of `getGroupedData()` in the aliasing model: `this._state.groupedData`
itself — the internal buckets, holding the store's own row addresses. -/
def aliasGetGroupedData (s : AliasState) : List (String × List Addr) :=
  s.groupedRefs

/-- Embedding of `getUngroupedRows()` in the aliasing model: the internal array
itself. -/
def aliasGetUngroupedRows (s : AliasState) : List Addr :=
  s.ungroupedRefs

/-- Embedding of `_computeGroups` in the aliasing model: partition the store's row
addresses by the grouping field of the object they point at, pushing the
addresses themselves into the buckets. -/
def aliasComputeGroups (s : AliasState) (gb : String) : AliasState :=
  let folded := s.dataRefs.foldl
    (fun (acc : List (String × List Addr) × List Addr) a =>
      let row := heapGet s.heap a
      if !(strictEq (objGet row "_type") (.vStr "data")) then acc
      else
        let key := objGet row gb
        if strictEq key .vNull || strictEq key .vUndef ||
            strictEq key (.vStr "") then
          (acc.1, acc.2 ++ [a])
        else
          let k := groupKeyStr key
          if acc.1.any (fun g => g.1 == k) then
            (acc.1.map (fun g => if g.1 == k then (g.1, g.2 ++ [a]) else g),
             acc.2)
          else (acc.1 ++ [(k, [a])], acc.2))
    ([], [])
  { s with groupedRefs := folded.1, ungroupedRefs := folded.2 }

/-- External mutation of a row object obtained from an accessor: write a
field of the object at the address. -/
def extMutate (s : AliasState) (a : Addr) (field : String) (v : JVal) :
    AliasState :=
  { s with heap := heapSet s.heap a (objSet (heapGet s.heap a) field v) }

/-- Well-formedness of the aliasing view: every allocated address and
every store address is below `next`. -/
def AliasState.WF (s : AliasState) : Prop :=
  (∀ kv ∈ s.heap.mem, kv.1 < s.heap.next) ∧ (∀ a ∈ s.dataRefs, a < s.heap.next)

/-! ## Concrete fixtures and derived definitions -/

/-- A data row: `{ id: 1, cat: "A", amt: 10 }`. -/
def rowA : Row := [("id", .vNum 1), ("cat", .vStr "A"), ("amt", .vNum 10)]

/-- A data row: `{ id: 2, cat: "B", amt: 5 }`. -/
def rowB : Row := [("id", .vNum 2), ("cat", .vStr "B"), ("amt", .vNum 5)]

/-- Columns: `cat` (no aggregate) and `amt` (sum). -/
def cols0 : List Column := [⟨"cat", none⟩, ⟨"amt", some "sum"⟩]

/-- Grouping by `cat` enabled. -/
def cfgGrouped : Config :=
  { enableGrouping := true, groupBy := some "cat", enableRowTotals := false }

/-- No grouping. -/
def cfgPlain : Config :=
  { enableGrouping := false, groupBy := none, enableRowTotals := false }

/-- A freshly constructed store (the `TableState` constructor's state)
with the given configuration and columns. -/
def emptyState (cfg : Config) (cols : List Column) : TState :=
  { data := [], originalData := [], columns := cols, dirtyRows := [],
    dirtyColumns := [], groupedData := none, ungroupedRows := [], infoRows := [],
    config := cfg, isBatching := false, batchQueue := [], nextId := 0 }

/-- Ungrouped store holding `rowA` and `rowB`. -/
def st0 : TState := (setData (emptyState cfgPlain cols0) [rowA, rowB]).1

/-- A row with an object-valued field:
`{ id: 3, o: { a: 1, b: 2 } }`. -/
def rowC : Row := [("id", .vNum 3), ("o", .vObj [("a", .vNum 1), ("b", .vNum 2)])]

/-- Store holding just `rowC`. -/
def stC : TState := (setData (emptyState cfgPlain cols0) [rowC]).1

/-- The member-value filter `GroupManager.recalculateTotals` applies
before aggregating: drop `null`, `undefined`, and NaN-coercing values. -/
def aggInput (vs : List JVal) : List JVal :=
  vs.filter (fun v =>
    !(strictEq v .vNull) && !(strictEq v .vUndef) && !jsIsNaN v)

/-- The actual numbers among a list of member values. -/
def numericOnly (vs : List JVal) : List ℚ :=
  vs.filterMap (fun v =>
    match v with
    | .vNum q => some q
    | _ => none)

/-- Names of a queue in first-enqueue order, skipping names already
`seen`. -/
def newNames (seen : List String) : List BusEvent → List String
  | [] => []
  | e :: q =>
    if e.name ∈ seen then newNames seen q
    else e.name :: newNames (seen ++ [e.name]) q

/-- First-enqueue order of the event names in a queue. -/
def firstOccNames (q : List BusEvent) : List String := newNames [] q

/-- The latest payload queued under a name. -/
def lastPayloadFor (q : List BusEvent) (n : String) : Option EvPayload :=
  ((q.filter (fun e => e.name == n)).map (fun e => e.payload)).getLast?

/-- Row id carried by a `cell:change` payload. -/
def cellChangePayloadRowId : EvPayload → Option JVal
  | .cellChange rid _ _ _ _ _ => some rid
  | _ => none

/-- Grouped store holding `rowA` and `rowB` right after `setData`. -/
def gst0 : TState := (setData (emptyState cfgGrouped cols0) [rowA, rowB]).1

/-- The same store after the `GroupManager` has consumed the `setData`
dispatch (its `DATA_CHANGE` listener computes the initial totals). -/
def gst1 : TState :=
  (gmDispatch gst0 (setData (emptyState cfgGrouped cols0) [rowA, rowB]).2).1

/-- Changing row 1's grouping key from `"A"` to `"B"` through
`updateCell`, with the `GroupManager` subscribed. -/
def c4res : TState × List BusEvent :=
  updateCellWithGM gst1 (.vNum 1) "cat" (.vStr "B")

/-- The internal state of a small grouped store in the aliasing model:
two rows at addresses 0 and 1, grouped by `cat`. -/
def aliasDemo : AliasState :=
  aliasComputeGroups
    { heap :=
        { mem :=
            [(0, [("_id", .vNum 1), ("_type", .vStr "data"),
                  ("cat", .vStr "A"), ("amt", .vNum 10)]),
             (1, [("_id", .vNum 2), ("_type", .vStr "data"),
                  ("cat", .vStr "B"), ("amt", .vNum 5)])],
          next := 2 },
      dataRefs := [0, 1], groupedRefs := [], ungroupedRefs := [],
      dirtyRows := [] } "cat"

/-- Embedding of `st0` after an effective edit of row 1's `amt` to 99 (the per-row
dirty-column record now holds `amt` for row 1). -/
def c2a : TState := (updateCell st0 (.vNum 1) "amt" (.vNum 99) false).1

/-- Embedding of `c2a` after writing `amt` back to its baseline value 10. -/
def c2b : TState := (updateCell c2a (.vNum 1) "amt" (.vNum 10) false).1

/-- One store edit: a single `updateCell` call or a `batchUpdate`. -/
inductive TEdit where
  | single (rowId : JVal) (columnName : String) (value : JVal)
  | batch (updates : List CellUpdate)

/-- Apply one edit (state view). -/
def applyEdit (st : TState) : TEdit → TState
  | .single rid col v => (updateCell st rid col v false).1
  | .batch us => (batchUpdate st us).1

/-- Apply a sequence of edits. -/
def applyEdits (edits : List TEdit) (st : TState) : TState :=
  edits.foldl applyEdit st

/-- A sequence of plain `updateCell` calls (state view). -/
def applyCellUpdates (us : List CellUpdate) (st : TState) : TState :=
  us.foldl (fun s u => (updateCell s u.rowId u.columnName u.value false).1) st

/-- The value a cell had in the baseline captured at the last
`setData`/`clearDirty` (read through `getRow`). -/
def baselineValue (base : TState) (rid : JVal) (col : String) : JVal :=
  match getRow base rid with
  | none => .vUndef
  | some r => objGet r col

/-- The relation the edit loop maintains between the store and the
baseline state `base`: same row count, same ids positionally, rows
outside the dirty set untouched, rows inside the dirty set not
deep-equal to their baseline row. -/
def DirtyInv (base st : TState) : Prop :=
  st.data.length = base.data.length ∧
    (∀ i, i < base.data.length →
      objGet (st.data.getD i []) "_id" = objGet (base.data.getD i []) "_id") ∧
    (∀ i, i < base.data.length →
      setHas st.dirtyRows (objGet (base.data.getD i []) "_id") = false →
      st.data.getD i [] = base.data.getD i []) ∧
    (∀ i, i < base.data.length →
      setHas st.dirtyRows (objGet (base.data.getD i []) "_id") = true →
      deepEqual (.vObj (st.data.getD i []))
        (.vObj (base.data.getD i [])) = false)

/-! ## Supporting lemmas -/

/-- Property: `===` only returns `true` on equal primitive values. -/
theorem strictEq_eq {a b : JVal} (h : strictEq a b = true) : a = b := by
  cases a <;> cases b <;> simp_all [strictEq]

/-- A value `===`-equal to something is `===`-equal to itself (it is a
non-NaN primitive). -/
theorem strictEq_self_of_left {a b : JVal} (h : strictEq a b = true) :
    strictEq a a = true := by
  cases a <;> cases b <;> simp_all [strictEq]

/-- Reading the field just written. -/
theorem objGet_objSet_self (r : Row) (k : String) (v : JVal) :
    objGet (objSet r k v) k = v := by
  induction r with
  | nil => simp [objSet, objGet]
  | cons kv rest ih =>
    by_cases h : kv.1 = k
    · simp [objSet, objGet, h]
    · simp [objSet, objGet, h, ih]

/-- Writing one field leaves the others unchanged. -/
theorem objGet_objSet_other (r : Row) (k k' : String) (v : JVal)
    (h : k ≠ k') : objGet (objSet r k v) k' = objGet r k' := by
  induction r with
  | nil => simp [objSet, objGet, h]
  | cons kv rest ih =>
    by_cases hk : kv.1 = k
    · subst hk
      simp [objSet, objGet, h, ih, Ne.symm h]
    · by_cases hk' : kv.1 = k'
      · simp [objSet, objGet, hk, hk', Ne.symm h]
      · simp [objSet, objGet, hk, hk', ih]

/-- The written binding is present in the object. -/
theorem mem_objSet_self (r : Row) (k : String) (v : JVal) :
    (k, v) ∈ objSet r k v := by
  induction r with
  | nil => simp [objSet]
  | cons kv rest ih =>
    by_cases h : kv.1 = k
    · simp [objSet, h]
    · simp [objSet, h, ih]

/-- Property: `===` that holds in one direction holds in the other. -/
theorem strictEq_symm_true {a b : JVal} (h : strictEq a b = true) :
    strictEq b a = true := by
  have hab := strictEq_eq h
  subst hab
  exact strictEq_self_of_left h

/-- Property: `===` is symmetric. -/
theorem strictEq_symm (a b : JVal) : strictEq a b = strictEq b a := by
  cases hab : strictEq a b
  · cases hba : strictEq b a
    · rfl
    · exact absurd (strictEq_symm_true hba) (by simp [hab])
  · exact (strictEq_symm_true hab).symm

/-- Membership in a JS `Set` after `add`. -/
theorem setHas_setAdd (s : List JVal) (v w : JVal) :
    setHas (setAdd s v) w = (setHas s w || strictEq w v) := by
  by_cases h : setHas s v
  · cases hsw : strictEq w v
    · simp [setAdd, h, hsw]
    · have hw : setHas s w = true := by rw [strictEq_eq hsw]; exact h
      simp [setAdd, h, hw]
  · have happ : setAdd s v = s ++ [v] := by simp [setAdd, h]
    rw [happ]
    simp [setHas, List.any_append, strictEq_symm v w]

/-- Property: `deepEqualFields` implies field-wise deep equality for the first
object's bindings. -/
theorem deepEqualFields_mem :
    ∀ (fa fb : List (String × JVal)), deepEqualFields fa fb = true →
      ∀ kv ∈ fa, deepEqual kv.2 (objGet fb kv.1) = true := by
  intro fa fb
  induction fa with
  | nil =>
    intro _ kv hkv
    cases hkv
  | cons kv0 rest ih =>
    obtain ⟨k0, v0⟩ := kv0
    intro h kv hkv
    simp only [deepEqualFields, Bool.and_eq_true] at h
    simp only [List.mem_cons] at hkv
    rcases hkv with rfl | hkv
    · exact h.1
    · exact ih h.2 kv hkv

/-- Two deep-equal objects agree (deep-equally) on every binding of the
first. -/
theorem deepEqual_obj_field {fa fb : List (String × JVal)}
    (h : deepEqual (.vObj fa) (.vObj fb) = true) :
    ∀ kv ∈ fa, deepEqual kv.2 (objGet fb kv.1) = true := by
  have hfields : deepEqualFields fa fb = true := by
    simp only [deepEqual, Bool.and_eq_true] at h
    exact h.2
  exact deepEqualFields_mem fa fb hfields











/-- Bridge from `find?` to `findIdx?`: a found element sits at the found
index. -/
theorem find?_findIdx? {α : Type} (d : α) (l : List α) (p : α → Bool)
    (r : α) (h : l.find? p = some r) :
    ∃ i, l.findIdx? p = some i ∧ l.getD i d = r := by
  induction l with
  | nil => cases h
  | cons a as ih =>
    by_cases hp : p a
    · refine ⟨0, ?_, ?_⟩
      · simp [List.findIdx?_cons, hp]
      · simp only [List.find?, hp] at h
        cases h
        rfl
    · rw [Bool.not_eq_true] at hp
      simp only [List.find?, hp] at h
      obtain ⟨i, hi, hg⟩ := ih h
      refine ⟨i + 1, ?_, hg⟩
      simp [List.findIdx?_cons, hp, hi]

/-! ## C6 — `updateCell` with a deep-equal value is a no-op -/

/-- C6 (confirmed).  For every store and every row present in it,
`updateCell(id, col, v)` where `v` is structurally `deepEqual` to the
currently stored value leaves the state unchanged and emits no events —
the comparison is `deepEqual`, i.e. structural, so any deep-equal value
takes the no-op path whether or not it is the same object. -/
theorem updateCell_noop_on_deepEqual (st : TState) (rid : JVal)
    (col : String) (v : JVal) (sc : Bool) (r : Row)
    (hrow : getRow st rid = some r)
    (heq : deepEqual (objGet r col) v = true) :
    updateCell st rid col v sc = (st, []) := by
  obtain ⟨i, hidx, hget⟩ :=
    find?_findIdx? ([] : Row) st.data
      (fun row => strictEq (objGet row "_id") rid) r hrow
  simp only [updateCell, hidx]
  rw [hget, heq]
  simp

/-- C6 witness: in the concrete store `stC`, updating field `o` of row 3
with `{ b: 2, a: 1 }` — a value that is *not* equal to the stored
`{ a: 1, b: 2 }` (different key order, hence a different object) but is
`deepEqual` to it — changes nothing and emits nothing. -/
theorem updateCell_noop_witness :
    updateCell stC (.vNum 3) "o" (.vObj [("b", .vNum 2), ("a", .vNum 1)])
        false = (stC, []) ∧
      ¬ (objGet (stC.data.getD 0 []) "o" =
          .vObj [("b", .vNum 2), ("a", .vNum 1)]) :=
  ⟨updateCell_noop_on_deepEqual stC (.vNum 3) "o"
      (.vObj [("b", .vNum 2), ("a", .vNum 1)]) false (stC.data.getD 0 [])
      (by rfl) (by rfl),
    by simp [stC, emptyState, cfgPlain, cols0, setData, normalizeData,
      normalizeGo, normalizeRow, rowC, objGet, objSet, truthy, busEmit]⟩

/-! ## C8 — dispatch and unsubscription during the pass -/

/-- All handlers get invoked when the alive set covers them and no
handler removes a later one. -/
theorem emitLive_all (hs : List Handler) (alive : List Nat)
    (hin : ∀ x ∈ hs, alive.contains x.id = true)
    (h : hs.Pairwise (fun a b => a.removes.contains b.id = false)) :
    emitLive hs alive = hs.map (fun x => x.id) := by
  induction hs generalizing alive with
  | nil => rfl
  | cons x rest ih =>
    have hx := hin x (List.mem_cons_self _ _)
    rw [emitLive, if_pos hx]
    have hpair := List.pairwise_cons.mp h
    rw [ih (alive.filter (fun i => !x.removes.contains i)) ?_ hpair.2]
    · rfl
    · intro y hy
      have hy' := hin y (List.mem_cons_of_mem _ hy)
      have hxy : x.removes.contains y.id = false := hpair.1 y hy
      rw [List.elem_iff] at hy' ⊢
      rw [List.mem_filter]
      refine ⟨hy', ?_⟩
      show (!x.removes.contains y.id) = true
      rw [hxy]
      rfl

/-- C8 (corrected).  `emit` iterates the live subscriber set, so the
current pass is unaffected only as long as no handler unsubscribes a
handler that has not yet been visited: under that hypothesis every
subscriber present at the start of the pass is invoked exactly once, in
subscription order.  (The counterexample shows the claim's unconditional
snapshot guarantee is false.) -/
theorem emitPass_no_forward_removal (hs : List Handler)
    (h : hs.Pairwise (fun a b => a.removes.contains b.id = false)) :
    emitPass hs = hs.map (fun x => x.id) := by
  apply emitLive_all
  · intro x hx
    rw [List.elem_iff]
    exact List.mem_map.mpr ⟨x, hx, rfl⟩
  · exact h

/-- C8 witness: a later handler unsubscribing an earlier one (id 2
removes id 1) does not disturb the pass — both run, in order. -/
theorem emitPass_witness :
    emitPass [⟨1, []⟩, ⟨2, [1]⟩] = [1, 2] :=
  emitPass_no_forward_removal [⟨1, []⟩, ⟨2, [1]⟩] (by decide)

/-- C8 counterexample: handler 1 unsubscribes handler 2 during the pass;
handler 2 was subscribed when `publish` started but is never invoked —
the subscriber set is iterated live, not snapshotted. -/
theorem emitPass_counterexample :
    emitPass [⟨1, [2]⟩, ⟨2, []⟩] = [1] ∧
      ¬ ((2 : Nat) ∈ emitPass [⟨1, [2]⟩, ⟨2, []⟩]) :=
  ⟨rfl, by decide⟩

/-! ## C5 — the built-in numeric aggregates -/



/-- Property: `toNumber` on a number is that number. -/
theorem toNumber_vNum (q : ℚ) : toNumber (.vNum q) = q := by
  simp [toNumber, strictEq, parseFloatCoerce]

/-- Values that are numbers, `null`, `undefined`, or non-coercible
strings: the group filter keeps exactly the numbers. -/
theorem aggInput_of_clean (vs : List JVal)
    (h : ∀ v ∈ vs, (∃ q, v = .vNum q) ∨ v = .vNull ∨ v = .vUndef ∨
      (∃ s, v = .vStr s ∧ numberJS s = none)) :
    aggInput vs = (numericOnly vs).map JVal.vNum := by
  induction vs with
  | nil => rfl
  | cons v rest ih =>
    have hv := h v (List.mem_cons_self _ _)
    have hrest := ih (fun w hw => h w (List.mem_cons_of_mem _ hw))
    rcases hv with ⟨q, rfl⟩ | rfl | rfl | ⟨s, rfl, hs⟩
    · simp [aggInput, numericOnly, strictEq, jsIsNaN, numberCoerce] at hrest ⊢
      exact hrest
    · simp [aggInput, numericOnly, strictEq] at hrest ⊢
      exact hrest
    · simp [aggInput, numericOnly, strictEq] at hrest ⊢
      exact hrest
    · simp [aggInput, numericOnly, strictEq, jsIsNaN, numberCoerce, hs]
        at hrest ⊢
      exact hrest

/-- Property: `sum` over actual numbers adds them up. -/
theorem sumQ_map_vNum (qs : List ℚ) :
    sumQ (qs.map JVal.vNum) = qs.foldl (· + ·) 0 := by
  show List.foldl _ (0 : ℚ) _ = _
  generalize (0 : ℚ) = init
  induction qs generalizing init with
  | nil => rfl
  | cons q rest ih => simp [sumQ, toNumber_vNum, ih]

/-- The coercion filter inside `min`/`max` keeps every element. -/
theorem minmax_filter_id (vs : List JVal) :
    vs.filter (fun v => !numIsNaN (toNumber v)) = vs := by
  simp [numIsNaN]

/-- Property: `sum` never evaluates to NaN. -/
theorem jsSum_ne_vNaN (ws : List JVal) : jsSum ws ≠ .vNaN := by
  simp [jsSum]

/-- Property: `average` never evaluates to NaN. -/
theorem jsAverage_ne_vNaN (ws : List JVal) : jsAverage ws ≠ .vNaN := by
  unfold jsAverage
  split <;> simp

/-- Property: `min` never evaluates to NaN. -/
theorem jsMin_ne_vNaN (ws : List JVal) : jsMin ws ≠ .vNaN := by
  show (match List.map toNumber
      (List.filter (fun v => !numIsNaN (toNumber v)) ws) with
    | [] => JVal.vNum 0
    | q :: qs => JVal.vNum (List.foldl Min.min q qs)) ≠ JVal.vNaN
  split <;> simp

/-- Property: `max` never evaluates to NaN. -/
theorem jsMax_ne_vNaN (ws : List JVal) : jsMax ws ≠ .vNaN := by
  show (match List.map toNumber
      (List.filter (fun v => !numIsNaN (toNumber v)) ws) with
    | [] => JVal.vNum 0
    | q :: qs => JVal.vNum (List.foldl Max.max q qs)) ≠ JVal.vNaN
  split <;> simp

/-- C5 (corrected).  Through the group-totals path, when every member
value is a number, `null`, `undefined`, or a string that does not coerce
to a number, the four built-in aggregates over the filtered input agree
with the numeric-only aggregates: the filter drops exactly the
non-numbers, `sum` adds the numbers, `average` divides by the count of
the numbers, `min`/`max` fold over the numbers alone (0 on an empty
input); and — with no hypothesis at all — none of the four aggregates
ever evaluates to NaN.  (The counterexample shows this fails for the
claim's full generality: empty strings, booleans and numeric strings
pass the NaN-coercion filter.) -/
theorem aggregates_clean_amended (vs : List JVal)
    (h : ∀ v ∈ vs, (∃ q, v = .vNum q) ∨ v = .vNull ∨ v = .vUndef ∨
      (∃ s, v = .vStr s ∧ numberJS s = none)) :
    calculateAggregate "sum" (aggInput vs) =
        .vNum ((numericOnly vs).foldl (· + ·) 0) ∧
      calculateAggregate "average" (aggInput vs) =
        .vNum (if (numericOnly vs).length = 0 then 0
          else ((numericOnly vs).foldl (· + ·) 0) / ((numericOnly vs).length : ℚ)) ∧
      calculateAggregate "min" (aggInput vs) =
        (match numericOnly vs with
         | [] => JVal.vNum 0
         | q :: qs => JVal.vNum (qs.foldl Min.min q)) ∧
      calculateAggregate "max" (aggInput vs) =
        (match numericOnly vs with
         | [] => JVal.vNum 0
         | q :: qs => JVal.vNum (qs.foldl Max.max q)) ∧
      (∀ ws : List JVal, calculateAggregate "sum" ws ≠ .vNaN ∧
        calculateAggregate "average" ws ≠ .vNaN ∧
        calculateAggregate "min" ws ≠ .vNaN ∧
        calculateAggregate "max" ws ≠ .vNaN) := by
  rw [show calculateAggregate "sum" (aggInput vs) = jsSum (aggInput vs) from rfl,
    show calculateAggregate "average" (aggInput vs) = jsAverage (aggInput vs) from rfl,
    show calculateAggregate "min" (aggInput vs) = jsMin (aggInput vs) from rfl,
    show calculateAggregate "max" (aggInput vs) = jsMax (aggInput vs) from rfl,
    aggInput_of_clean vs h]
  refine ⟨?_, ?_, ?_, ?_, ?_⟩
  · rw [jsSum, sumQ_map_vNum]
  · rw [jsAverage]
    rcases hn : numericOnly vs with _ | ⟨q, qs⟩
    · simp
    · rw [sumQ_map_vNum]
      simp
  · show (match List.map toNumber (List.filter (fun v => !numIsNaN (toNumber v))
        ((numericOnly vs).map JVal.vNum)) with
      | [] => JVal.vNum 0
      | q :: qs => JVal.vNum (List.foldl Min.min q qs)) = _
    rw [minmax_filter_id, List.map_map,
      show (toNumber ∘ JVal.vNum) = (fun q : ℚ => q) from funext toNumber_vNum,
      List.map_id']
  · show (match List.map toNumber (List.filter (fun v => !numIsNaN (toNumber v))
        ((numericOnly vs).map JVal.vNum)) with
      | [] => JVal.vNum 0
      | q :: qs => JVal.vNum (List.foldl Max.max q qs)) = _
    rw [minmax_filter_id, List.map_map,
      show (toNumber ∘ JVal.vNum) = (fun q : ℚ => q) from funext toNumber_vNum,
      List.map_id']
  · intro ws
    exact ⟨jsSum_ne_vNaN ws, jsAverage_ne_vNaN ws, jsMin_ne_vNaN ws,
      jsMax_ne_vNaN ws⟩

/-- C5 witness: member values `[7, null, "x"]` — the aggregates reduce to
the numeric-only aggregates over `[7]`. -/
theorem aggregates_clean_witness :
    calculateAggregate "min" (aggInput [.vNum 7, .vNull, .vStr "x"]) =
      .vNum ((([] : List ℚ)).foldl Min.min 7) :=
  (aggregates_clean_amended [.vNum 7, .vNull, .vStr "x"]
    (by
      intro v hv
      simp only [List.mem_cons, List.not_mem_nil, or_false] at hv
      rcases hv with rfl | rfl | rfl
      · exact Or.inl ⟨7, rfl⟩
      · exact Or.inr (Or.inl rfl)
      · exact Or.inr (Or.inr (Or.inr ⟨"x", rfl, by rfl⟩)))).2.2.1

/-- C5 counterexample: an empty-string member value passes the
NaN-coercion filter (`Number("") = 0`) and is then coerced to 0 by
`toNumber`, so through the group-totals path `min([5, ""])` evaluates to
0, not the numeric-only minimum 5, and `average([2, ""])` evaluates to 1
— the sum of the numeric values divided by the *total* kept count — not
the numeric-only average 2.  The aggregates do not equal the aggregates
over only the numeric member values. -/
theorem aggregates_counterexample :
    calculateAggregate "min" (aggInput [.vNum 5, .vStr ""]) = .vNum 0 ∧
      calculateAggregate "min"
        ((numericOnly [.vNum 5, .vStr ""]).map JVal.vNum) = .vNum 5 ∧
      calculateAggregate "average" (aggInput [.vNum 2, .vStr ""]) = .vNum 1 ∧
      calculateAggregate "average"
        ((numericOnly [.vNum 2, .vStr ""]).map JVal.vNum) = .vNum 2 ∧
      JVal.vNum (0 : ℚ) ≠ JVal.vNum 5 ∧ JVal.vNum (1 : ℚ) ≠ JVal.vNum 2 := by
  refine ⟨?_, ?_, ?_, ?_, ?_, ?_⟩
  · rw [show calculateAggregate "min" (aggInput [.vNum 5, .vStr ""]) =
      .vNum (Min.min (5 : ℚ) 0) from rfl]
    simp only [JVal.vNum.injEq]
    norm_num
  · rw [show calculateAggregate "min"
      ((numericOnly [.vNum 5, .vStr ""]).map JVal.vNum) = .vNum (5 : ℚ) from rfl]
  · rw [show calculateAggregate "average" (aggInput [.vNum 2, .vStr ""]) =
      .vNum (((0 : ℚ) + 2 + 0) / 2) from rfl]
    simp only [JVal.vNum.injEq]
    norm_num
  · rw [show calculateAggregate "average"
      ((numericOnly [.vNum 2, .vStr ""]).map JVal.vNum) =
      .vNum (((0 : ℚ) + 2) / 1) from rfl]
    simp only [JVal.vNum.injEq]
    norm_num
  · intro h
    injection h with h'
    norm_num at h'
  · intro h
    injection h with h'
    norm_num at h'

/-! ## C1 — `endBatch` deduplication -/




/-- The JS-Map presence test of `mapUpsert`, as a membership of keys. -/
theorem any_key_iff (m : List (String × EvPayload)) (k : String) :
    (m.any (fun kv => kv.1 == k) = true) ↔ k ∈ m.map Prod.fst := by
  simp only [List.any_eq_true, List.mem_map, beq_iff_eq]

/-- Upserting an existing key keeps the key sequence. -/
theorem mapUpsert_keys_mem (m : List (String × EvPayload)) (k : String)
    (v : EvPayload) (h : k ∈ m.map Prod.fst) :
    (mapUpsert m k v).map Prod.fst = m.map Prod.fst := by
  rw [mapUpsert, if_pos ((any_key_iff m k).mpr h), List.map_map]
  apply List.map_congr_left
  intro kv _
  by_cases hk : kv.1 = k <;> simp [beq_iff_eq, hk]

/-- Upserting a fresh key appends it. -/
theorem mapUpsert_keys_new (m : List (String × EvPayload)) (k : String)
    (v : EvPayload) (h : ¬ k ∈ m.map Prod.fst) :
    (mapUpsert m k v).map Prod.fst = m.map Prod.fst ++ [k] := by
  rw [mapUpsert, if_neg (by simp [any_key_iff m k, h]), List.map_append]
  rfl

/-- Key sequence of the deduplication fold. -/
theorem foldUpsert_keys (q : List BusEvent) :
    ∀ m : List (String × EvPayload),
      ((q.foldl (fun acc e => mapUpsert acc e.name e.payload) m).map Prod.fst)
        = m.map Prod.fst ++ newNames (m.map Prod.fst) q := by
  induction q with
  | nil =>
    intro m
    simp [newNames]
  | cons e q ih =>
    intro m
    rw [List.foldl_cons, ih (mapUpsert m e.name e.payload)]
    by_cases hk : e.name ∈ m.map Prod.fst
    · rw [mapUpsert_keys_mem m e.name e.payload hk, newNames, if_pos hk]
    · rw [mapUpsert_keys_new m e.name e.payload hk, newNames, if_neg hk]
      simp

/-- Members of an upsert at key `k` either carry the new payload (at key
`k`) or come from the original map (at another key). -/
theorem mem_mapUpsert (m : List (String × EvPayload)) (k : String)
    (v : EvPayload) (kv : String × EvPayload)
    (h : kv ∈ mapUpsert m k v) :
    (kv.1 = k ∧ kv.2 = v) ∨ (kv.1 ≠ k ∧ kv ∈ m) := by
  rw [mapUpsert] at h
  split at h
  · rw [List.mem_map] at h
    obtain ⟨kv', hkv', rfl⟩ := h
    by_cases hk : (kv'.1 == k) = true
    · rw [if_pos hk]
      exact Or.inl ⟨beq_iff_eq.mp hk, rfl⟩
    · right
      simp only [hk, if_neg, Bool.false_eq_true, not_false_eq_true, ite_false]
      exact ⟨by simpa using hk, hkv'⟩
  · rw [List.mem_append] at h
    rcases h with h | h
    · by_cases hk : kv.1 = k
      · exfalso
        rename_i hany
        apply hany
        rw [List.any_eq_true]
        exact ⟨kv, h, by simp [hk]⟩
      · exact Or.inr ⟨hk, h⟩
    · left
      simp only [List.mem_singleton] at h
      subst h
      exact ⟨rfl, rfl⟩

/-- A name occurs in a queue iff filtering by it is nonempty. -/
theorem mem_names_iff_filter (q : List BusEvent) (n : String) :
    n ∈ q.map (fun e => e.name) ↔ q.filter (fun e => e.name == n) ≠ [] := by
  rw [Ne, List.filter_eq_nil_iff]
  simp only [List.mem_map, beq_iff_eq, not_forall]
  constructor
  · rintro ⟨e, he, rfl⟩
    exact ⟨e, he, by simp⟩
  · rintro ⟨e, he, hn⟩
    simp only [Decidable.not_not] at hn
    exact ⟨e, he, hn⟩

/-- Property: `lastPayloadFor` over a cons whose name recurs later in the queue. -/
theorem lastPayloadFor_cons_of_mem (e : BusEvent) (q : List BusEvent)
    (n : String) (h : n ∈ q.map (fun x => x.name)) :
    lastPayloadFor (e :: q) n = lastPayloadFor q n := by
  have hne := (mem_names_iff_filter q n).mp h
  rw [lastPayloadFor, lastPayloadFor, List.filter_cons]
  split
  · rcases hq : q.filter (fun x => x.name == n) with _ | ⟨c, l⟩
    · exact absurd hq hne
    · rw [hq]
      simp
  · rfl

/-- Property: `lastPayloadFor` over a cons whose name never recurs. -/
theorem lastPayloadFor_cons_of_not_mem (e : BusEvent) (q : List BusEvent)
    (h : ¬ e.name ∈ q.map (fun x => x.name)) :
    lastPayloadFor (e :: q) e.name = some e.payload := by
  have hnil : q.filter (fun x => x.name == e.name) = [] := by
    by_contra hne
    exact h ((mem_names_iff_filter q e.name).mpr hne)
  rw [lastPayloadFor, List.filter_cons, if_pos (by simp), hnil]
  rfl

/-- Payloads surviving the deduplication fold: the latest payload of
their name when the name is queued, the original map entry otherwise. -/
theorem foldUpsert_payloads (q : List BusEvent) :
    ∀ (m : List (String × EvPayload))
      (kv : String × EvPayload),
      kv ∈ q.foldl (fun acc e => mapUpsert acc e.name e.payload) m →
      (kv.1 ∈ q.map (fun e => e.name) ∧ lastPayloadFor q kv.1 = some kv.2) ∨
        (¬ kv.1 ∈ q.map (fun e => e.name) ∧ kv ∈ m) := by
  induction q with
  | nil =>
    intro m kv h
    exact Or.inr ⟨by simp, h⟩
  | cons e q ih =>
    intro m kv h
    rw [List.foldl_cons] at h
    rcases ih (mapUpsert m e.name e.payload) kv h with ⟨hmem, hlast⟩ | ⟨hmem, hm⟩
    · exact Or.inl ⟨by simp [hmem],
        by rw [lastPayloadFor_cons_of_mem e q kv.1 hmem]; exact hlast⟩
    · rcases mem_mapUpsert m e.name e.payload kv hm with ⟨hk, hv⟩ | ⟨hk, hkv⟩
      · left
        refine ⟨by simp [hk], ?_⟩
        rw [hk, hv, lastPayloadFor_cons_of_not_mem e q (hk ▸ hmem)]
      · right
        refine ⟨?_, hkv⟩
        simp only [List.map_cons, List.mem_cons]
        rintro (hkk | hkk)
        · exact hk hkk
        · exact hmem hkk

/-- C1 (amended).  `endBatch` deduplicates the pending queue by the event
*kind alone* — for every kind, change events included, only the last
queued payload survives, whatever row or column the payloads concern —
dispatches one survivor per kind in first-enqueue order of the kinds,
and clears the queue and the batching flag.  (The counterexample shows
the per-(kind, row, column) keying the claim asserts is false: a batch
touching two cells dispatches a single `cell:change`.) -/
theorem endBatch_dedupes_by_kind (st : TState) :
    ((endBatch st).2.map (fun e => e.name) = firstOccNames st.batchQueue) ∧
      (∀ e ∈ (endBatch st).2,
        lastPayloadFor st.batchQueue e.name = some e.payload) ∧
      (endBatch st).1.isBatching = false ∧
      (endBatch st).1.batchQueue = [] := by
  refine ⟨?_, ?_, rfl, rfl⟩
  · show ((dedupeQueue st.batchQueue).map
        (fun kv => BusEvent.mk kv.1 kv.2)).map (fun e => e.name) = _
    rw [List.map_map]
    have := foldUpsert_keys st.batchQueue []
    simp only [List.map_nil, List.nil_append] at this
    exact this
  · intro e he
    simp only [endBatch, List.mem_map] at he
    obtain ⟨kv, hkv, rfl⟩ := he
    rcases foldUpsert_payloads st.batchQueue [] kv hkv with ⟨_, hlast⟩ | ⟨_, hm⟩
    · exact hlast
    · cases hm


/-- C1 counterexample: a `batchUpdate` touching the two distinct cells
(row 1, `amt`) and (row 2, `amt`) — both writes effective, both rows end
up dirty — dispatches exactly one `cell:change`, the one for row 2 (the
last queued payload of that kind).  The touched cell (row 1, `amt`)
gets no cell-change notification at all, contradicting one notification
per touched (row, column) key. -/
theorem batch_two_cells_counterexample :
    (((batchUpdate st0 [⟨.vNum 1, "amt", .vNum 11⟩,
          ⟨.vNum 2, "amt", .vNum 21⟩]).2.filter
        (fun e => e.name == "cell:change")).map
      (fun e => cellChangePayloadRowId e.payload)) = [some (.vNum 2)] ∧
      (batchUpdate st0 [⟨.vNum 1, "amt", .vNum 11⟩,
          ⟨.vNum 2, "amt", .vNum 21⟩]).1.dirtyRows = [.vNum 1, .vNum 2] :=
  ⟨rfl, rfl⟩

/-! ## C4 — cell change on the grouping-key column -/




/-- C4 (the code at the claim's failing input).  After
`updateCell(1, "cat", "B")` the store's row 1 carries `cat = "B"`, yet
`groupedData` is *not* repartitioned: row 1 is still the sole member of
group `"A"`'s list and absent from group `"B"`'s — no listener performs a
repartition on any cell change (the `CELL_CHANGE` listener only
recomputes totals, and only when the column declares an aggregate, which
a key column need not; even then it recomputes the group named by the
*new* key, not the old owner).  This contradicts the documented intent
(`moveRowToGroup`'s contract and the spec's required full repartition on
key change). -/
theorem groupKey_change_no_repartition :
    objGet ((getRow c4res.1 (.vNum 1)).getD []) "cat" = .vStr "B" ∧
      groupMemberIds c4res.1 "A" = [.vNum 1] ∧
      groupMemberIds c4res.1 "B" = [.vNum 2] ∧
      isRowDirty c4res.1 (.vNum 1) = true :=
  ⟨rfl, rfl, rfl, rfl⟩

/-! ## C7 — accessor copies vs internal references -/

/-- Property: `find?` over a list extended on the right by a fresh key is
unchanged for other keys. -/
theorem find?_append_single {α : Type} (l : List (Addr × α)) (n a : Addr)
    (r : α) (ha : a ≠ n) :
    ((l ++ [(n, r)]).find? (fun kv => kv.1 == a)) =
      l.find? (fun kv => kv.1 == a) := by
  induction l with
  | nil =>
    have hna : (n == a) = false := beq_eq_false_iff_ne.mpr (Ne.symm ha)
    simp [List.find?, hna]
  | cons kv l ih =>
    rw [List.cons_append]
    cases hkv : (kv.1 == a) <;> simp [List.find?, hkv, ih]

/-- Allocation does not change what other addresses hold. -/
theorem heapGet_alloc (h : RowHeap) (r : Row) (a : Addr)
    (ha : a ≠ h.next) : heapGet (heapAlloc h r).1 a = heapGet h a := by
  rw [heapGet, heapGet, heapAlloc]
  rw [find?_append_single h.mem h.next a r ha]

/-- Property: `find?` at a key other than the overwritten one is unchanged. -/
theorem find?_map_upsertRow (l : List (Addr × Row)) (a b : Addr) (r : Row)
    (hab : b ≠ a) :
    ((l.map (fun kv => if kv.1 == a then (kv.1, r) else kv)).find?
        (fun kv => kv.1 == b)) =
      l.find? (fun kv => kv.1 == b) := by
  induction l with
  | nil => rfl
  | cons kv l ih =>
    rw [List.map_cons]
    by_cases hkv : (kv.1 == a) = true
    · have hb : (kv.1 == b) = false := by
        rw [beq_iff_eq] at hkv
        exact beq_eq_false_iff_ne.mpr (by rw [hkv]; exact Ne.symm hab)
      rw [if_pos hkv]
      simp only [List.find?, hb, ih]
    · rw [if_neg hkv]
      cases hb : (kv.1 == b) <;> simp only [List.find?, hb, ih]

/-- Writing one address does not change what other addresses hold. -/
theorem heapGet_set_other (h : RowHeap) (a b : Addr) (r : Row)
    (hab : b ≠ a) : heapGet (heapSet h a r) b = heapGet h b := by
  show (match ((h.mem.map fun kv => if kv.1 == a then (kv.1, r) else kv).find?
      (fun kv => kv.1 == b)) with
    | some kv => kv.2
    | none => []) = heapGet h b
  rw [find?_map_upsertRow h.mem a b r hab]
  rfl

/-- Specification of the clone fold: every returned address is fresh
(at or above the original `next`), `next` only grows, and every address
below the original `next` still holds what it held. -/
theorem cloneRows_spec (h : RowHeap) (addrs : List Addr) :
    (∀ a ∈ (cloneRows h addrs).2, h.next ≤ a) ∧
      h.next ≤ (cloneRows h addrs).1.next ∧
      (∀ b, b < h.next → heapGet (cloneRows h addrs).1 b = heapGet h b) := by
  suffices hgen : ∀ (hp : RowHeap) (acc : List Addr),
      (∀ a ∈ (addrs.foldl
          (fun (acc' : RowHeap × List Addr) a =>
            ((heapAlloc acc'.1 (heapGet h a)).1,
              acc'.2 ++ [(heapAlloc acc'.1 (heapGet h a)).2])) (hp, acc)).2,
        a ∈ acc ∨ hp.next ≤ a) ∧
      hp.next ≤ (addrs.foldl
          (fun (acc' : RowHeap × List Addr) a =>
            ((heapAlloc acc'.1 (heapGet h a)).1,
              acc'.2 ++ [(heapAlloc acc'.1 (heapGet h a)).2])) (hp, acc)).1.next ∧
      (∀ b, b < hp.next → heapGet (addrs.foldl
          (fun (acc' : RowHeap × List Addr) a =>
            ((heapAlloc acc'.1 (heapGet h a)).1,
              acc'.2 ++ [(heapAlloc acc'.1 (heapGet h a)).2])) (hp, acc)).1 b =
        heapGet hp b) by
    obtain ⟨h1, h2, h3⟩ := hgen h []
    refine ⟨fun a ha => ?_, h2, h3⟩
    rcases h1 a ha with hc | hc
    · cases hc
    · exact hc
  induction addrs with
  | nil =>
    intro hp acc
    exact ⟨fun a ha => Or.inl ha, le_refl _, fun b _ => rfl⟩
  | cons a0 rest ih =>
    intro hp acc
    obtain ⟨ih1, ih2, ih3⟩ :=
      ih (heapAlloc hp (heapGet h a0)).1 (acc ++ [(heapAlloc hp (heapGet h a0)).2])
    rw [List.foldl_cons]
    refine ⟨?_, ?_, ?_⟩
    · intro a ha
      rcases ih1 a ha with hc | hc
      · rw [List.mem_append] at hc
        rcases hc with hc | hc
        · exact Or.inl hc
        · simp only [List.mem_singleton] at hc
          subst hc
          exact Or.inr (le_refl _)
      · exact Or.inr (le_trans (Nat.le_succ _) hc)
    · exact le_trans (Nat.le_succ _) ih2
    · intro b hb
      rw [ih3 b (lt_trans hb (Nat.lt_succ_self _))]
      exact heapGet_alloc hp (heapGet h a0) b (Nat.ne_of_lt hb)

/-- C7 (amended).  `getData`, `getDirtyRows` and `getRow` return deep
clones: every returned row object is freshly allocated, never one of the
store's own, and mutating a returned object leaves every internal row
unchanged.  `getGroupedData` and `getUngroupedRows`, however, return the
internal structures themselves (whose member lists hold the store's own
row objects); the counterexample shows mutating through them corrupts
the store. -/
theorem accessors_return_copies_amended (s : AliasState) (hwf : s.WF) :
    (∀ a ∈ (aliasGetData s).2, ¬ a ∈ s.dataRefs) ∧
      (∀ a ∈ (aliasGetData s).2, ∀ f v,
        internalRows (extMutate (aliasGetData s).1 a f v) = internalRows s) ∧
      (∀ a ∈ (aliasGetDirtyRows s).2, ¬ a ∈ s.dataRefs) ∧
      (∀ a ∈ (aliasGetDirtyRows s).2, ∀ f v,
        internalRows (extMutate (aliasGetDirtyRows s).1 a f v) = internalRows s) ∧
      (∀ rid a, (aliasGetRow s rid).2 = some a → ¬ a ∈ s.dataRefs) ∧
      aliasGetGroupedData s = s.groupedRefs ∧
      aliasGetUngroupedRows s = s.ungroupedRefs := by
  obtain ⟨hmem, hdata⟩ := hwf
  have hfrData := cloneRows_spec s.heap s.dataRefs
  have hfrDirty := cloneRows_spec s.heap (s.dataRefs.filter
    (fun a => setHas s.dirtyRows (objGet (heapGet s.heap a) "_id")))
  refine ⟨?_, ?_, ?_, ?_, ?_, rfl, rfl⟩
  · intro a ha hin
    exact absurd (hfrData.1 a ha) (by simpa using hdata a hin)
  · intro a ha f v
    rw [internalRows, internalRows, extMutate]
    apply List.map_congr_left
    intro b hb
    have hblt : b < s.heap.next := hdata b hb
    rw [heapGet_set_other _ a b _
      (Nat.ne_of_lt (lt_of_lt_of_le hblt (hfrData.1 a ha)))]
    exact hfrData.2.2 b hblt
  · intro a ha hin
    exact absurd (hfrDirty.1 a ha) (by simpa using hdata a hin)
  · intro a ha f v
    rw [internalRows, internalRows, extMutate]
    apply List.map_congr_left
    intro b hb
    have hblt : b < s.heap.next := hdata b hb
    rw [heapGet_set_other _ a b _
      (Nat.ne_of_lt (lt_of_lt_of_le hblt (hfrDirty.1 a ha)))]
    exact hfrDirty.2.2 b hblt
  · intro rid a ha hin
    rw [aliasGetRow] at ha
    rcases hfind : s.dataRefs.find?
        (fun x => strictEq (objGet (heapGet s.heap x) "_id") rid) with _ | found
    · rw [hfind] at ha
      cases ha
    · rw [hfind] at ha
      simp only [Option.some.injEq] at ha
      subst ha
      exact absurd (hdata _ hin) (by simp [heapAlloc])


/-- C7 counterexample: `getGroupedData()` hands out the internal group
buckets, whose member lists hold the store's own row objects (address 0
is both in group "A"'s member list and in the store's data array);
mutating `amt` of that returned row object changes the store's internal
row from 10 to 99 — the accessor returned a reference, not a copy. -/
theorem grouped_accessor_alias_counterexample :
    aliasGetGroupedData aliasDemo = [("A", [0]), ("B", [1])] ∧
      (0 : Addr) ∈ aliasDemo.dataRefs ∧
      objGet ((internalRows aliasDemo).getD 0 []) "amt" = .vNum 10 ∧
      objGet ((internalRows
          (extMutate aliasDemo 0 "amt" (.vNum 99))).getD 0 []) "amt" =
        .vNum 99 ∧
      JVal.vNum (99 : ℚ) ≠ .vNum 10 :=
  ⟨rfl, by decide, rfl, rfl, by
    intro h
    injection h with h'
    norm_num at h'⟩

/-- C7 witness: in the concrete grouped store, mutating the first row
object returned by `getData()` (freshly allocated at address 2) leaves
every internal row untouched. -/
theorem accessors_return_copies_witness :
    internalRows (extMutate (aliasGetData aliasDemo).1 2 "amt" (.vNum 99)) =
      internalRows aliasDemo :=
  (accessors_return_copies_amended aliasDemo
      (by
        refine ⟨?_, ?_⟩ <;> intro a ha <;> fin_cases ha <;> decide)).2.1
    2 (by decide) "amt" (.vNum 99)

/-! ## State-projection lemmas for the store operations -/

/-- Property: `emit` only touches the queue. -/
theorem busEmit_data (st : TState) (e : BusEvent) :
    (busEmit st e).1.data = st.data := by
  rw [busEmit]; split <;> rfl

/-- Property: `emit` only touches the queue. -/
theorem busEmit_originalData (st : TState) (e : BusEvent) :
    (busEmit st e).1.originalData = st.originalData := by
  rw [busEmit]; split <;> rfl

/-- Property: `emit` only touches the queue. -/
theorem busEmit_dirtyRows (st : TState) (e : BusEvent) :
    (busEmit st e).1.dirtyRows = st.dirtyRows := by
  rw [busEmit]; split <;> rfl

/-- Property: `emit` only touches the queue. -/
theorem busEmit_dirtyColumns (st : TState) (e : BusEvent) :
    (busEmit st e).1.dirtyColumns = st.dirtyColumns := by
  rw [busEmit]; split <;> rfl

/-- Property: `emit` only touches the queue. -/
theorem busEmit_nextId (st : TState) (e : BusEvent) :
    (busEmit st e).1.nextId = st.nextId := by
  rw [busEmit]; split <;> rfl

/-- Property: `emit` only touches the queue. -/
theorem busEmit_columns (st : TState) (e : BusEvent) :
    (busEmit st e).1.columns = st.columns := by
  rw [busEmit]; split <;> rfl

/-- Property: `emit` only touches the queue. -/
theorem busEmit_config (st : TState) (e : BusEvent) :
    (busEmit st e).1.config = st.config := by
  rw [busEmit]; split <;> rfl

/-- Property: `emit` only touches the queue. -/
theorem busEmit_isBatching (st : TState) (e : BusEvent) :
    (busEmit st e).1.isBatching = st.isBatching := by
  rw [busEmit]; split <;> rfl

/-- Property: `_computeGroups` only writes the group partition fields. -/
theorem computeGroups_data (st : TState) :
    (computeGroups st).data = st.data := by
  rw [computeGroups]; cases st.config.groupBy <;> rfl

/-- Property: `_computeGroups` only writes the group partition fields. -/
theorem computeGroups_originalData (st : TState) :
    (computeGroups st).originalData = st.originalData := by
  rw [computeGroups]; cases st.config.groupBy <;> rfl

/-- Property: `_computeGroups` only writes the group partition fields. -/
theorem computeGroups_dirtyRows (st : TState) :
    (computeGroups st).dirtyRows = st.dirtyRows := by
  rw [computeGroups]; cases st.config.groupBy <;> rfl

/-- Property: `_computeGroups` only writes the group partition fields. -/
theorem computeGroups_dirtyColumns (st : TState) :
    (computeGroups st).dirtyColumns = st.dirtyColumns := by
  rw [computeGroups]; cases st.config.groupBy <;> rfl

/-- Property: `_computeGroups` only writes the group partition fields. -/
theorem computeGroups_nextId (st : TState) :
    (computeGroups st).nextId = st.nextId := by
  rw [computeGroups]; cases st.config.groupBy <;> rfl

/-- Property: `_computeGroups` only writes the group partition fields. -/
theorem computeGroups_columns (st : TState) :
    (computeGroups st).columns = st.columns := by
  rw [computeGroups]; cases st.config.groupBy <;> rfl

/-- Property: `_computeGroups` only writes the group partition fields. -/
theorem computeGroups_config (st : TState) :
    (computeGroups st).config = st.config := by
  rw [computeGroups]; cases st.config.groupBy <;> rfl

/-- Property: `_computeGroups` only writes the group partition fields. -/
theorem computeGroups_isBatching (st : TState) :
    (computeGroups st).isBatching = st.isBatching := by
  rw [computeGroups]; cases st.config.groupBy <;> rfl

/-- What `setData` does to each core field: normalized data, raw
baseline, cleared `dirtyRows` — and `dirtyColumns` untouched. -/
theorem setData_fields (st : TState) (d : List Row) :
    (setData st d).1.data = (normalizeData st.nextId d).1 ∧
      (setData st d).1.originalData = d ∧
      (setData st d).1.dirtyRows = [] ∧
      (setData st d).1.dirtyColumns = st.dirtyColumns ∧
      (setData st d).1.nextId = (normalizeData st.nextId d).2 ∧
      (setData st d).1.columns = st.columns ∧
      (setData st d).1.config = st.config ∧
      (setData st d).1.isBatching = st.isBatching := by
  simp only [setData]
  refine ⟨?_, ?_, ?_, ?_, ?_, ?_, ?_, ?_⟩
  · rw [busEmit_data]
    split
    · rw [computeGroups_data]
    · rfl
  · rw [busEmit_originalData]
    split
    · rw [computeGroups_originalData]
    · rfl
  · rw [busEmit_dirtyRows]
    split
    · rw [computeGroups_dirtyRows]
    · rfl
  · rw [busEmit_dirtyColumns]
    split
    · rw [computeGroups_dirtyColumns]
    · rfl
  · rw [busEmit_nextId]
    split
    · rw [computeGroups_nextId]
    · rfl
  · rw [busEmit_columns]
    split
    · rw [computeGroups_columns]
    · rfl
  · rw [busEmit_config]
    split
    · rw [computeGroups_config]
    · rfl
  · rw [busEmit_isBatching]
    split
    · rw [computeGroups_isBatching]
    · rfl

/-- Property: `updateCell` on an unknown row id is a no-op. -/
theorem updateCell_missing (st : TState) (rid : JVal) (col : String)
    (v : JVal) (sc : Bool)
    (hf : st.data.findIdx? (fun r => strictEq (objGet r "_id") rid) = none) :
    updateCell st rid col v sc = (st, []) := by
  simp only [updateCell, hf]

/-- Property: `updateCell` writing a deep-equal value is a no-op (the internal
form of the C6 statement, for reuse). -/
theorem updateCell_skip (st : TState) (rid : JVal) (col : String)
    (v : JVal) (sc : Bool) (i : Nat)
    (hf : st.data.findIdx? (fun r => strictEq (objGet r "_id") rid) = some i)
    (he : deepEqual (objGet (st.data.getD i []) col) v = true) :
    updateCell st rid col v sc = (st, []) := by
  simp only [updateCell, hf]
  rw [he]
  simp

/-- The effective branch of `updateCell`: the written row, the dirty
bookkeeping, every other field untouched, and — outside a batch — the
two dispatched events. -/
theorem updateCell_effective (st : TState) (rid : JVal) (col : String)
    (v : JVal) (sc : Bool) (i : Nat)
    (hf : st.data.findIdx? (fun r => strictEq (objGet r "_id") rid) = some i)
    (hne : deepEqual (objGet (st.data.getD i []) col) v = false) :
    (updateCell st rid col v sc).1.data =
        st.data.set i (objSet (st.data.getD i []) col v) ∧
      (updateCell st rid col v sc).1.dirtyRows = setAdd st.dirtyRows rid ∧
      (updateCell st rid col v sc).1.dirtyColumns =
        dirtyColsAdd st.dirtyColumns rid col ∧
      (updateCell st rid col v sc).1.originalData = st.originalData ∧
      (updateCell st rid col v sc).1.nextId = st.nextId ∧
      (updateCell st rid col v sc).1.columns = st.columns ∧
      (updateCell st rid col v sc).1.config = st.config ∧
      (updateCell st rid col v sc).1.isBatching = st.isBatching ∧
      (st.isBatching = false →
        (updateCell st rid col v sc).2 =
          [⟨"cell:change", .cellChange rid i col
              (objGet (st.data.getD i []) col) v
              (objSet (st.data.getD i []) col v)⟩,
           ⟨"row:change", .rowChange rid i col
              (objSet (st.data.getD i []) col v)
              (dirtyColsGet (dirtyColsAdd st.dirtyColumns rid col) rid)⟩]) := by
  simp only [updateCell, hf]
  rw [hne]
  simp only [Bool.false_eq_true, if_false]
  refine ⟨?_, ?_, ?_, ?_, ?_, ?_, ?_, ?_, ?_⟩
  · rw [busEmit_data, busEmit_data]
  · rw [busEmit_dirtyRows, busEmit_dirtyRows]
  · rw [busEmit_dirtyColumns, busEmit_dirtyColumns]
  · rw [busEmit_originalData, busEmit_originalData]
  · rw [busEmit_nextId, busEmit_nextId]
  · rw [busEmit_columns, busEmit_columns]
  · rw [busEmit_config, busEmit_config]
  · rw [busEmit_isBatching, busEmit_isBatching]
  · intro hb
    rw [busEmit, if_neg (by simp [hb]), busEmit, if_neg (by simp [hb])]
    rfl

/-- A `findIdx?` hit satisfies the predicate at the found position. -/
theorem findIdx?_getD_pred {α : Type} (d : α) (l : List α) (p : α → Bool) :
    ∀ i, l.findIdx? p = some i → p (l.getD i d) = true := by
  induction l with
  | nil =>
    intro i h
    cases h
  | cons a as ih =>
    intro i h
    by_cases hp : p a = true
    · rw [List.findIdx?_cons, if_pos hp] at h
      cases h
      exact hp
    · rw [List.findIdx?_cons, if_neg hp, List.findIdx?_succ] at h
      rcases hi : as.findIdx? p with _ | j
      · rw [hi] at h
        cases h
      · rw [hi] at h
        simp only [Option.map_some', Option.some.injEq] at h
        subst h
        exact ih j hi

/-- No key match by `any` means no `find?` hit. -/
theorem find?_none_of_any_false (m : List (JVal × List String)) (k : JVal)
    (hany : (m.any fun kv => strictEq kv.1 k) = false) :
    m.find? (fun kv => strictEq kv.1 k) = none := by
  rw [List.find?_eq_none]
  intro x hx
  simp only [List.any_eq_false] at hany
  exact hany x hx

/-- Looking up a key appended behind non-matching entries. -/
theorem find?_append_key (m : List (JVal × List String)) (k : JVal)
    (col : List String)
    (hnone : m.find? (fun kv => strictEq kv.1 k) = none)
    (hk : strictEq k k = true) :
    ((m ++ [(k, col)]).find? fun kv => strictEq kv.1 k) = some (k, col) := by
  induction m with
  | nil => simp [List.find?, hk]
  | cons kv m ih =>
    have hkvf : strictEq kv.1 k = false := by
      simpa using List.find?_eq_none.mp hnone kv (List.mem_cons_self _ _)
    rw [List.cons_append]
    simp only [List.find?, hkvf]
    exact ih (by
      rw [List.find?_eq_none]
      intro x hx
      exact List.find?_eq_none.mp hnone x (List.mem_cons_of_mem _ hx))

/-- Reading through the update map of `dirtyColsAdd`. -/
theorem dirtyColsGet_map_add (m : List (JVal × List String)) (k : JVal)
    (col : String) :
    dirtyColsGet (m.map (fun kv =>
        if strictEq kv.1 k then
          (kv.1, if kv.2.contains col then kv.2 else kv.2 ++ [col])
        else kv)) k =
      (match m.find? (fun kv => strictEq kv.1 k) with
       | some kv => if kv.2.contains col then kv.2 else kv.2 ++ [col]
       | none => []) := by
  induction m with
  | nil => rfl
  | cons kv m ih =>
    by_cases hkv : strictEq kv.1 k = true
    · rw [List.map_cons, if_pos hkv, dirtyColsGet]
      simp only [List.find?, hkv]
    · have hkvf : strictEq kv.1 k = false := by simpa using hkv
      rw [List.map_cons, if_neg hkv, dirtyColsGet]
      simp only [List.find?, hkvf]
      exact ih

/-- Reading the per-row dirty-column set right after `dirtyColsAdd`: the
previously recorded column set with the new column appended (when new). -/
theorem dirtyColsGet_add (m : List (JVal × List String)) (k : JVal)
    (col : String) (hk : strictEq k k = true) :
    dirtyColsGet (dirtyColsAdd m k col) k =
      (if (dirtyColsGet m k).contains col then dirtyColsGet m k
       else dirtyColsGet m k ++ [col]) := by
  by_cases hany : (m.any fun kv => strictEq kv.1 k) = true
  · rw [dirtyColsAdd, if_pos hany, dirtyColsGet_map_add]
    cases hfind : m.find? (fun kv => strictEq kv.1 k) with
    | some kv => rw [dirtyColsGet, hfind]
    | none =>
      obtain ⟨x, hx, hpx⟩ := List.any_eq_true.mp hany
      exact absurd (List.find?_eq_none.mp hfind x hx) (by simp [hpx])
  · have hanyf : (m.any fun kv => strictEq kv.1 k) = false := by
      simpa using hany
    have hnone := find?_none_of_any_false m k hanyf
    rw [dirtyColsAdd, if_neg (by rw [hanyf]; simp)]
    rw [dirtyColsGet, find?_append_key m k [col] hnone hk,
      dirtyColsGet, hnone]
    simp

/-! ## C10 — `setData` leaves the per-row dirty-column map behind -/

/-- C10 (confirmed).  `setData` empties the dirty-row set but leaves
`dirtyColumns` untouched (only `clearDirty` clears both).  Hence for a
row that was edited before the data replacement and exists again
afterwards, the first effective `updateCell` on it emits a `row:change`
whose `dirtyColumns` list is the previously recorded column list with
the newly changed column appended. -/
theorem setData_keeps_dirtyColumns (st : TState) (d : List Row)
    (rid : JVal) (col : String) (v : JVal) (sc : Bool) (i : Nat)
    (hfind : (setData st d).1.data.findIdx?
        (fun r => strictEq (objGet r "_id") rid) = some i)
    (hchg : deepEqual (objGet ((setData st d).1.data.getD i []) col) v = false)
    (hnew : ((dirtyColsGet st.dirtyColumns rid).contains col) = false)
    (hbat : st.isBatching = false) :
    (setData st d).1.dirtyRows = [] ∧
      (setData st d).1.dirtyColumns = st.dirtyColumns ∧
      (updateCell (setData st d).1 rid col v sc).2 =
        [⟨"cell:change", .cellChange rid i col
            (objGet ((setData st d).1.data.getD i []) col) v
            (objSet ((setData st d).1.data.getD i []) col v)⟩,
         ⟨"row:change", .rowChange rid i col
            (objSet ((setData st d).1.data.getD i []) col v)
            (dirtyColsGet st.dirtyColumns rid ++ [col])⟩] := by
  have hsd := setData_fields st d
  have heff := updateCell_effective (setData st d).1 rid col v sc i hfind hchg
  refine ⟨hsd.2.2.1, hsd.2.2.2.1, ?_⟩
  have hb2 : (setData st d).1.isBatching = false := by
    rw [hsd.2.2.2.2.2.2.2, hbat]
  rw [heff.2.2.2.2.2.2.2.2 hb2]
  rw [hsd.2.2.2.1]
  have hself : strictEq rid rid = true := by
    have hpred := findIdx?_getD_pred ([] : Row) (setData st d).1.data _ i hfind
    exact strictEq_self_of_left (strictEq_symm_true hpred)
  rw [dirtyColsGet_add st.dirtyColumns rid col hself,
    if_neg (by rw [hnew]; simp)]



/-- C10 witness: after editing row 1's `amt`, replacing the whole data
set with `setData`, and then changing row 1's `cat`, the emitted
`row:change` still lists `amt` — recorded before the replacement —
alongside the new `cat`. -/
theorem setData_keeps_dirtyColumns_witness :
    (setData c2a [rowA, rowB]).1.dirtyRows = [] ∧
      (setData c2a [rowA, rowB]).1.dirtyColumns = c2a.dirtyColumns ∧
      (updateCell (setData c2a [rowA, rowB]).1 (.vNum 1) "cat" (.vStr "Z")
          false).2 =
        [⟨"cell:change", .cellChange (.vNum 1) 0 "cat"
            (objGet ((setData c2a [rowA, rowB]).1.data.getD 0 []) "cat")
            (.vStr "Z")
            (objSet ((setData c2a [rowA, rowB]).1.data.getD 0 []) "cat"
              (.vStr "Z"))⟩,
         ⟨"row:change", .rowChange (.vNum 1) 0 "cat"
            (objSet ((setData c2a [rowA, rowB]).1.data.getD 0 []) "cat"
              (.vStr "Z"))
            (dirtyColsGet c2a.dirtyColumns (.vNum 1) ++ ["cat"])⟩] :=
  setData_keeps_dirtyColumns c2a [rowA, rowB] (.vNum 1) "cat" (.vStr "Z")
    false 0 rfl rfl rfl rfl

/-! ## C9 — `addRow`/`deleteRow` go through `setData` -/

/-- An empty dirty set makes `getDirtyRows` empty. -/
theorem getDirtyRows_of_nil (st : TState) (h : st.dirtyRows = []) :
    getDirtyRows st = [] := by
  rw [getDirtyRows, h]
  simp [setHas]

/-- Generated ids are truthy (nonempty strings). -/
theorem genId_truthy (n : Nat) : truthy (genId n) = true := by
  rw [genId, truthy]
  simp only [Bool.not_eq_true']
  rw [beq_eq_false_iff_ne]
  intro h
  have hlen := congrArg String.length h
  rw [String.length_append] at hlen
  rw [show ("et_".length) = 3 from rfl, show ("".length) = 0 from rfl] at hlen
  omega

/-- Normalizing a row that already carries a truthy `_id` or `id` does
not consult the id supply and returns it unchanged. -/
theorem normalizeRow_truthy (r : Row) (idx s s' : Nat)
    (h : (truthy (objGet r "_id") || truthy (objGet r "id")) = true) :
    (normalizeRow s idx r).1 = (normalizeRow s' idx r).1 ∧
      (normalizeRow s idx r).2 = s := by
  rw [normalizeRow, normalizeRow]
  by_cases h1 : truthy (objGet r "_id") = true
  · simp [h1]
  · have h2 : truthy (objGet r "id") = true := by
      rw [Bool.not_eq_true] at h1
      rw [h1, Bool.false_or] at h
      exact h
    simp [h1, h2]

/-- Normalizing data whose rows all carry truthy ids is independent of
the id supply, and leaves the supply unchanged. -/
theorem normalizeGo_stable (d : List Row) :
    ∀ (s s' idx : Nat),
      (∀ r ∈ d, (truthy (objGet r "_id") || truthy (objGet r "id")) = true) →
      (normalizeGo s idx d).1 = (normalizeGo s' idx d).1 ∧
        (normalizeGo s idx d).2 = s := by
  induction d with
  | nil =>
    intro s s' idx _
    exact ⟨rfl, rfl⟩
  | cons r d ih =>
    intro s s' idx h
    have hr := h r (List.mem_cons_self _ _)
    have hrow := normalizeRow_truthy r idx s s' hr
    have hrow2 := normalizeRow_truthy r idx s' s' hr
    have hrest := ih (normalizeRow s idx r).2 (normalizeRow s' idx r).2
      (idx + 1) (fun x hx => h x (List.mem_cons_of_mem _ hx))
    rw [normalizeGo, normalizeGo]
    constructor
    · show ((normalizeRow s idx r).1 ::
            (normalizeGo (normalizeRow s idx r).2 (idx + 1) d).1) = _
      rw [hrow.1, hrest.1]
    · show (normalizeGo (normalizeRow s idx r).2 (idx + 1) d).2 = s
      rw [(ih (normalizeRow s idx r).2 (normalizeRow s idx r).2 (idx + 1)
        (fun x hx => h x (List.mem_cons_of_mem _ hx))).2, hrow.2]

/-- After any operation of the shape `setData(d'); emit(e)` on data whose
rows all carry truthy ids, the dirty set reads empty and `revertChanges`
reproduces the post-operation data (the baseline was replaced by `d'`). -/
theorem post_setData_state (st1 : TState) (d' : List Row) (e : BusEvent)
    (hid : ∀ r ∈ d',
      (truthy (objGet r "_id") || truthy (objGet r "id")) = true) :
    getDirtyRows (busEmit (setData st1 d').1 e).1 = [] ∧
      getData (revertChanges (busEmit (setData st1 d').1 e).1).1 =
        getData (busEmit (setData st1 d').1 e).1 := by
  have hsd := setData_fields st1 d'
  constructor
  · apply getDirtyRows_of_nil
    rw [busEmit_dirtyRows, hsd.2.2.1]
  · rw [revertChanges]
    have horig : (busEmit (setData st1 d').1 e).1.originalData = d' := by
      rw [busEmit_originalData, hsd.2.1]
    rw [horig]
    have hdata := (setData_fields (busEmit (setData st1 d').1 e).1 d').1
    rw [getData, getData, hdata, busEmit_data, hsd.1]
    exact (normalizeGo_stable d' (busEmit (setData st1 d').1 e).1.nextId
      st1.nextId 0 hid).1

/-- Restamping indices preserves each row's `_id`. -/
theorem restampGo_id (d : List Row) :
    ∀ (idx : Nat), ∀ r ∈ restampGo idx d,
      ∃ r0 ∈ d, objGet r "_id" = objGet r0 "_id" := by
  induction d with
  | nil =>
    intro idx r hr
    cases hr
  | cons r0 d ih =>
    intro idx r hr
    rcases List.mem_cons.mp hr with rfl | hr
    · exact ⟨r0, List.mem_cons_self _ _,
        objGet_objSet_other r0 "_index" "_id" _ (by decide)⟩
    · obtain ⟨r1, hr1, he⟩ := ih (idx + 1) r hr
      exact ⟨r1, List.mem_cons_of_mem _ hr1, he⟩

/-- Restamping indices preserves each row's `_id` (rows correspond to
rows of the input). -/
theorem restampIndices_id (d : List Row) :
    ∀ r ∈ restampIndices d, ∃ r0 ∈ d, objGet r "_id" = objGet r0 "_id" :=
  restampGo_id d 0

/-- The `groupId` arm never loses the new row's truthy `_id` (stamping
the key onto the very `_id` field only happens with a truthy key). -/
theorem addRowGroupPlacement_id (data : List Row) (groupBy : Option String)
    (gOpt : Option JVal) (newRow0 : Row)
    (h : truthy (objGet newRow0 "_id") = true) :
    truthy (objGet (addRowGroupPlacement data groupBy gOpt newRow0).2 "_id")
      = true := by
  rw [addRowGroupPlacement.eq_def]
  rcases gOpt with _ | gid
  · exact h
  · dsimp only
    by_cases hg : truthy gid = true
    · rw [if_pos hg]
      rcases groupBy with _ | gb
      · exact h
      · show truthy (objGet (objSet newRow0 gb gid) "_id") = true
        by_cases hgb : gb = "_id"
        · subst hgb
          rw [objGet_objSet_self]
          exact hg
        · rw [objGet_objSet_other _ _ _ _ hgb]
          exact h
    · rw [if_neg hg]
      exact h

/-- The inserted row always carries a truthy `_id`. -/
theorem addRowPlacement_id (data : List Row) (groupBy : Option String)
    (opts : AddRowOptions) (newRow0 : Row)
    (h : truthy (objGet newRow0 "_id") = true) :
    truthy (objGet (addRowPlacement data groupBy opts newRow0).2 "_id")
      = true := by
  rw [addRowPlacement.eq_def]
  rcases opts.index with _ | i
  · dsimp only
    rcases opts.afterRowId with _ | aid
    · exact addRowGroupPlacement_id data groupBy opts.groupId newRow0 h
    · dsimp only
      by_cases ha : truthy aid = true
      · rw [if_pos ha]
        exact h
      · rw [if_neg ha]
        exact addRowGroupPlacement_id data groupBy opts.groupId newRow0 h
  · exact h

/-- C9 (confirmed).  `addRow` and `deleteRow` work by handing the edited
row sequence to `setData`, which clears the dirty set and replaces the
baseline with the already-edited data: afterwards `getDirtyRows()` is
empty, and a subsequent `revertChanges()` reproduces the post-edit data
(not the data passed to the last explicit `setData`).  For `deleteRow`
this concerns the successful path (an unknown id is a silent no-op). -/
theorem addRow_deleteRow_reset_dirty_and_baseline (st : TState)
    (rowData : Row) (opts : AddRowOptions) (rid : JVal)
    (hid : ∀ r ∈ st.data, truthy (objGet r "_id") = true) :
    (getDirtyRows (addRow st rowData opts).1 = [] ∧
        getData (revertChanges (addRow st rowData opts).1).1 =
          getData (addRow st rowData opts).1) ∧
      ((deleteRow st rid).2.2 = true →
        getDirtyRows (deleteRow st rid).1 = [] ∧
          getData (revertChanges (deleteRow st rid).1).1 =
            getData (deleteRow st rid).1) := by
  have hsub : ∀ (l : List Row), (∀ r ∈ l, r ∈ st.data) →
      ∀ r ∈ restampIndices l,
        (truthy (objGet r "_id") || truthy (objGet r "id")) = true := by
    intro l hl r hr
    obtain ⟨r0, hr0, hgid⟩ := restampIndices_id l r hr
    rw [hgid, hid r0 (hl r0 hr0)]
    rfl
  constructor
  · -- addRow
    simp only [addRow]
    apply post_setData_state
    intro r hr
    obtain ⟨r0, hr0, hgid⟩ := restampIndices_id _ r hr
    rw [hgid]
    rw [List.mem_append] at hr0
    rcases hr0 with hr0 | hr0
    · rw [List.mem_append] at hr0
      rcases hr0 with hr0 | hr0
      · rw [hid r0 (List.take_subset _ _ hr0)]
        rfl
      · -- the new row itself
        simp only [List.mem_singleton] at hr0
        subst hr0
        have hbase : truthy (objGet
            (objSet (objSet rowData "_id"
              (if truthy (objGet rowData "_id") = true
               then (objGet rowData "_id", st.nextId)
               else (genId st.nextId, st.nextId + 1)).1) "_type"
              (.vStr opts.rtype)) "_id") = true := by
          rw [objGet_objSet_other _ "_type" "_id" _ (by decide),
            objGet_objSet_self]
          split
          · rename_i ht
            exact ht
          · exact genId_truthy st.nextId
        rw [addRowPlacement_id _ _ _ _ hbase]
        rfl
    · rw [hid r0 (List.drop_subset _ _ hr0)]
      rfl
  · -- deleteRow
    intro hsucc
    rcases hfind : st.data.findIdx?
        (fun r => strictEq (objGet r "_id") rid) with _ | i
    · rw [deleteRow] at hsucc ⊢
      rw [getData] at hsucc
      rw [hfind] at hsucc
      cases hsucc
    · have heq : deleteRow st rid =
          (let data' := restampIndices
            ((getData st).take i ++ (getData st).drop (i + 1))
          let afterSet := setData st data'
          let emitted := busEmit afterSet.1
            { name := "row:delete",
              payload := .rowDelete rid ((getData st).getD i []) i }
          (emitted.1, afterSet.2 ++ emitted.2, true)) := by
        rw [deleteRow, getData]
        rw [hfind]
      rw [heq]
      apply post_setData_state st _ _
      exact hsub _ (fun r hr => by
        rw [List.mem_append] at hr
        rcases hr with hr | hr
        · exact List.take_subset _ _ hr
        · exact List.drop_subset _ _ hr)

/-- C9 witness: `c2a` has a pending edit (row 1 is dirty); appending
`{ id: 7, amt: 1 }` through `addRow`, or deleting row 2, empties
`getDirtyRows()` and makes `revertChanges` reproduce the post-edit data. -/
theorem addRow_deleteRow_reset_witness :
    (getDirtyRows (addRow c2a [("id", .vNum 7), ("amt", .vNum 1)]
          ({} : AddRowOptions)).1 = [] ∧
        getData (revertChanges (addRow c2a [("id", .vNum 7), ("amt", .vNum 1)]
            ({} : AddRowOptions)).1).1 =
          getData (addRow c2a [("id", .vNum 7), ("amt", .vNum 1)]
            ({} : AddRowOptions)).1) ∧
      ((deleteRow c2a (.vNum 2)).2.2 = true →
        getDirtyRows (deleteRow c2a (.vNum 2)).1 = [] ∧
          getData (revertChanges (deleteRow c2a (.vNum 2)).1).1 =
            getData (deleteRow c2a (.vNum 2)).1) :=
  addRow_deleteRow_reset_dirty_and_baseline c2a
    [("id", .vNum 7), ("amt", .vNum 1)] ({} : AddRowOptions) (.vNum 2)
    (by decide)

/-! ## C3 — `revertChanges` after edits -/




/-- Property: `updateCell` never touches the baseline snapshot. -/
theorem updateCell_originalData (st : TState) (rid : JVal) (col : String)
    (v : JVal) (sc : Bool) :
    (updateCell st rid col v sc).1.originalData = st.originalData := by
  rcases hf : st.data.findIdx? (fun r => strictEq (objGet r "_id") rid)
      with _ | i
  · rw [updateCell_missing st rid col v sc hf]
  · by_cases he : deepEqual (objGet (st.data.getD i []) col) v = true
    · rw [updateCell_skip st rid col v sc i hf he]
    · exact (updateCell_effective st rid col v sc i hf
        (by simpa using he)).2.2.2.1

/-- The `updateCell` fold inside `batchUpdate` never touches the
baseline snapshot. -/
theorem foldUpdate_originalData (us : List CellUpdate) :
    ∀ (acc : TState × List BusEvent),
      ((us.foldl (fun acc u =>
          let r := updateCell acc.1 u.rowId u.columnName u.value true
          (r.1, acc.2 ++ r.2)) acc).1).originalData = acc.1.originalData := by
  induction us with
  | nil =>
    intro acc
    rfl
  | cons u us ih =>
    intro acc
    rw [List.foldl_cons, ih]
    exact updateCell_originalData acc.1 u.rowId u.columnName u.value true

/-- Property: `batchUpdate` never touches the baseline snapshot. -/
theorem batchUpdate_originalData (st : TState) (us : List CellUpdate) :
    (batchUpdate st us).1.originalData = st.originalData := by
  rw [batchUpdate]
  rw [busEmit_originalData]
  show (us.foldl _ (startBatch st, [])).1.originalData = _
  rw [foldUpdate_originalData us (startBatch st, [])]
  rfl

/-- No edit touches the baseline snapshot. -/
theorem applyEdits_originalData (edits : List TEdit) :
    ∀ st : TState, (applyEdits edits st).originalData = st.originalData := by
  induction edits with
  | nil =>
    intro st
    rfl
  | cons e edits ih =>
    intro st
    rw [applyEdits, List.foldl_cons]
    show (applyEdits edits (applyEdit st e)).originalData = _
    rw [ih (applyEdit st e)]
    rcases e with ⟨rid, col, v⟩ | us
    · exact updateCell_originalData st rid col v false
    · exact batchUpdate_originalData st us

/-- C3 (amended).  For data whose rows carry their own (truthy) `_id` or
`id`, after any sequence of `updateCell`/`batchUpdate` edits,
`revertChanges()` restores `getData()` to exactly what it returned right
after the original `setData(d)` — that is, to the *normalization* of
`d` (each row extended with `_id`/`_index`/`_type` metadata), which is
deep-equal to `d` itself only when `d` is already normalized.  (The
counterexample shows `getData()` after the round trip is not deep-equal
to a plain, unnormalized `d`.) -/
theorem revertChanges_restores_normalized (st1 : TState) (d : List Row)
    (edits : List TEdit)
    (hid : ∀ r ∈ d,
      (truthy (objGet r "_id") || truthy (objGet r "id")) = true) :
    getData (revertChanges (applyEdits edits (setData st1 d).1)).1 =
      getData (setData st1 d).1 := by
  have horig : (applyEdits edits (setData st1 d).1).originalData = d := by
    rw [applyEdits_originalData edits (setData st1 d).1,
      (setData_fields st1 d).2.1]
  rw [revertChanges, horig]
  rw [getData, getData, (setData_fields _ d).1, (setData_fields st1 d).1]
  exact (normalizeGo_stable d _ st1.nextId 0 hid).1

/-- C3 counterexample: `setData([rowA, rowB])`, an edit, then
`revertChanges()` — the restored `getData()` is *not* deep-equal to the
raw input `d = [rowA, rowB]` (rows have gained `_id`/`_index`/`_type`),
though it equals `getData()` as it stood right after the `setData`. -/
theorem revert_not_deepEqual_counterexample :
    deepEqual (.vArr ((getData (revertChanges c2a).1).map JVal.vObj))
        (.vArr ([rowA, rowB].map JVal.vObj)) = false ∧
      getData (revertChanges c2a).1 = getData st0 :=
  ⟨rfl, rfl⟩

/-- C3 witness: a single edit followed by a batch edit, then revert —
`getData()` is back to its post-`setData` value. -/
theorem revertChanges_restores_witness :
    getData (revertChanges (applyEdits
        [TEdit.single (.vNum 1) "amt" (.vNum 99),
         TEdit.batch [⟨.vNum 2, "amt", .vNum 3⟩]]
        (setData (emptyState cfgPlain cols0) [rowA, rowB]).1)).1 =
      getData (setData (emptyState cfgPlain cols0) [rowA, rowB]).1 :=
  revertChanges_restores_normalized (emptyState cfgPlain cols0) [rowA, rowB]
    [TEdit.single (.vNum 1) "amt" (.vNum 99),
     TEdit.batch [⟨.vNum 2, "amt", .vNum 3⟩]]
    (by decide)

/-! ## C2 — the dirty set against the baseline -/




/-- Property: `getD` after `set` at the written index. -/
theorem getD_set_self {α : Type} (l : List α) (i : Nat) (x d : α)
    (h : i < l.length) : (l.set i x).getD i d = x := by
  rw [List.getD_eq_getElem?_getD, List.getElem?_set_self (by simpa using h)]
  rfl

/-- Property: `getD` after `set` at another index. -/
theorem getD_set_other {α : Type} (l : List α) (i j : Nat) (x d : α)
    (h : j ≠ i) : (l.set i x).getD j d = l.getD j d := by
  rw [List.getD_eq_getElem?_getD, List.getElem?_set_ne (Ne.symm h),
    ← List.getD_eq_getElem?_getD]

/-- A `findIdx?` hit is inside the list. -/
theorem findIdx?_lt_length {α : Type} (l : List α) (p : α → Bool) :
    ∀ i, l.findIdx? p = some i → i < l.length := by
  induction l with
  | nil =>
    intro i h
    cases h
  | cons a as ih =>
    intro i h
    by_cases hp : p a = true
    · rw [List.findIdx?_cons, if_pos hp] at h
      cases h
      simp
    · rw [List.findIdx?_cons, if_neg hp, List.findIdx?_succ] at h
      rcases hi : as.findIdx? p with _ | j
      · rw [hi] at h
        cases h
      · rw [hi] at h
        simp only [Option.map_some', Option.some.injEq] at h
        subst h
        have := ih j hi
        simp only [List.length_cons]
        omega

/-- Property: `find?` when the predicate has exactly one matching position. -/
theorem find?_of_unique_match (l : List Row) (p : Row → Bool) :
    ∀ (i : Nat), i < l.length → p (l.getD i []) = true →
      (∀ j, j < l.length → p (l.getD j []) = true → j = i) →
      l.find? p = some (l.getD i []) := by
  induction l with
  | nil =>
    intro i hi
    exact absurd hi (by simp)
  | cons r rest ih =>
    intro i hi hp huniq
    by_cases hr : p r = true
    · have h0 : 0 = i := huniq 0 (by simp) (by simpa using hr)
      rw [← h0]
      simp [List.find?, hr]
    · have hi0 : i ≠ 0 := by
        intro h
        subst h
        exact hr (by simpa using hp)
      obtain ⟨i', rfl⟩ : ∃ i', i = i' + 1 := ⟨i - 1, by omega⟩
      have hrec : rest.find? p = some (rest.getD i' []) := by
        apply ih i' (by simpa [Nat.succ_lt_succ_iff] using hi) hp
        intro j hj hpj
        have := huniq (j + 1) (by simpa [Nat.succ_lt_succ_iff] using hj) hpj
        omega
      simp [List.find?, hr, hrec]

/-- One effective or ineffective `updateCell` preserves `DirtyInv`
against the baseline, provided the written value is never deep-equal to
the baseline cell value and the reserved `_id` field is not edited. -/
theorem updateCell_dirtyInv (base st : TState) (u : CellUpdate)
    (hpair : ∀ i j, i < base.data.length → j < base.data.length → i ≠ j →
      strictEq (objGet (base.data.getD i []) "_id")
        (objGet (base.data.getD j []) "_id") = false)
    (hcol : u.columnName ≠ "_id")
    (hval : deepEqual u.value (baselineValue base u.rowId u.columnName) = false)
    (hinv : DirtyInv base st) :
    DirtyInv base (updateCell st u.rowId u.columnName u.value false).1 := by
  obtain ⟨hlen, hids, hclean, hdirty⟩ := hinv
  rcases hf : st.data.findIdx?
      (fun r => strictEq (objGet r "_id") u.rowId) with _ | i
  · rw [updateCell_missing st u.rowId u.columnName u.value false hf]
    exact ⟨hlen, hids, hclean, hdirty⟩
  · by_cases he : deepEqual (objGet (st.data.getD i []) u.columnName)
        u.value = true
    · rw [updateCell_skip st u.rowId u.columnName u.value false i hf he]
      exact ⟨hlen, hids, hclean, hdirty⟩
    · have heff := updateCell_effective st u.rowId u.columnName u.value
        false i hf (by simpa using he)
      have hilt : i < st.data.length := findIdx?_lt_length st.data _ i hf
      have hiltb : i < base.data.length := by rw [← hlen]; exact hilt
      have hpi : strictEq (objGet (st.data.getD i []) "_id") u.rowId = true :=
        findIdx?_getD_pred ([] : Row) st.data _ i hf
      have hpib : strictEq (objGet (base.data.getD i []) "_id") u.rowId
          = true := by
        rw [← hids i hiltb]
        exact hpi
      have hrid : objGet (base.data.getD i []) "_id" = u.rowId :=
        strictEq_eq hpib
      have huniq : ∀ j, j < base.data.length →
          strictEq (objGet (base.data.getD j []) "_id") u.rowId = true →
          j = i := by
        intro j hj hpj
        by_contra hne
        have hd := hpair j i hj hiltb hne
        rw [strictEq_eq hpj, ← hrid] at hd
        have hself : strictEq (objGet (base.data.getD i []) "_id")
            (objGet (base.data.getD i []) "_id") = true :=
          strictEq_self_of_left hpib
        rw [hself] at hd
        cases hd
      refine ⟨?_, ?_, ?_, ?_⟩
      · rw [heff.1, List.length_set]
        exact hlen
      · intro j hj
        rw [heff.1]
        by_cases hji : j = i
        · subst hji
          rw [getD_set_self st.data j _ [] hilt,
            objGet_objSet_other _ _ _ _ hcol]
          exact hids j hj
        · rw [getD_set_other st.data i j _ [] hji]
          exact hids j hj
      · intro j hj hno
        rw [heff.1, heff.2.1] at *
        rw [setHas_setAdd] at hno
        have hno1 : setHas st.dirtyRows
            (objGet (base.data.getD j []) "_id") = false := by
          rcases Bool.or_eq_false_iff.mp hno with ⟨h1, _⟩
          exact h1
        have hno2 : strictEq (objGet (base.data.getD j []) "_id") u.rowId
            = false := by
          rcases Bool.or_eq_false_iff.mp hno with ⟨_, h2⟩
          exact h2
        have hji : j ≠ i := by
          intro h
          subst h
          rw [hpib] at hno2
          cases hno2
        rw [getD_set_other st.data i j _ [] hji]
        exact hclean j hj hno1
      · intro j hj hyes
        rw [heff.1, heff.2.1] at *
        rw [setHas_setAdd] at hyes
        by_cases hji : j = i
        · subst hji
          rw [getD_set_self st.data j _ [] hilt]
          have hbv : baselineValue base u.rowId u.columnName =
              objGet (base.data.getD j []) u.columnName := by
            rw [baselineValue, getRow,
              find?_of_unique_match base.data _ j hiltb hpib
                (fun j' hj' hpj' => huniq j' hj' hpj')]
          cases hdeq : deepEqual (.vObj (objSet (st.data.getD j [])
              u.columnName u.value)) (.vObj (base.data.getD j [])) with
          | false => rfl
          | true =>
            exfalso
            have hfield := deepEqual_obj_field hdeq
              (u.columnName, u.value)
              (mem_objSet_self (st.data.getD j []) u.columnName u.value)
            rw [hbv] at hval
            rw [hfield] at hval
            cases hval
        · rw [getD_set_other st.data i j _ [] hji]
          cases h1 : setHas st.dirtyRows
              (objGet (base.data.getD j []) "_id") with
          | true => exact hdirty j hj h1
          | false =>
            have h2 : strictEq (objGet (base.data.getD j []) "_id") u.rowId
                = true := by
              rw [h1] at hyes
              simpa using hyes
            exact absurd (huniq j hj h2) hji

/-- The edit loop preserves `DirtyInv`. -/
theorem applyCellUpdates_dirtyInv (base : TState) (us : List CellUpdate)
    (hpair : ∀ i j, i < base.data.length → j < base.data.length → i ≠ j →
      strictEq (objGet (base.data.getD i []) "_id")
        (objGet (base.data.getD j []) "_id") = false)
    (hus : ∀ u ∈ us, u.columnName ≠ "_id" ∧
      deepEqual u.value (baselineValue base u.rowId u.columnName) = false) :
    ∀ st, DirtyInv base st → DirtyInv base (applyCellUpdates us st) := by
  induction us with
  | nil =>
    intro st h
    exact h
  | cons u us ih =>
    intro st h
    rw [applyCellUpdates, List.foldl_cons]
    have hu := hus u (List.mem_cons_self _ _)
    exact ih (fun u' hu' => hus u' (List.mem_cons_of_mem _ hu'))
      _ (updateCell_dirtyInv base st u hpair hu.1 hu.2 h)

/-- The baseline state satisfies its own invariant (its dirty set is
empty). -/
theorem dirtyInv_base (st1 : TState) (d : List Row) :
    DirtyInv (setData st1 d).1 (setData st1 d).1 := by
  have hdr := (setData_fields st1 d).2.2.1
  refine ⟨rfl, fun i _ => rfl, fun i _ _ => rfl, fun i _ hcon => ?_⟩
  rw [hdr] at hcon
  simp [setHas] at hcon

/-- C2 (amended).  Provided the rows of the normalized data carry
pairwise-distinct ids, edits never target the reserved `_id` field, and
no `updateCell` in the sequence writes a value deep-equal to that cell's
baseline value, the dirty set after the sequence is *right-closed and
exact*: a row absent from the dirty set is exactly its baseline row (no
field differs), and a row present in the dirty set is not deep-equal to
its baseline row (some field differs).  Without the no-write-back
proviso this fails: a cell changed away from and back to its baseline
value leaves the row in the dirty set with no differing field (the
counterexample); and `getDirtyRows()` is empty right after
`clearDirty()`, unconditionally. -/
theorem dirty_set_exact_amended (st1 : TState) (d : List Row)
    (us : List CellUpdate)
    (hpair : ∀ i j, i < (setData st1 d).1.data.length →
      j < (setData st1 d).1.data.length → i ≠ j →
      strictEq (objGet ((setData st1 d).1.data.getD i []) "_id")
        (objGet ((setData st1 d).1.data.getD j []) "_id") = false)
    (hus : ∀ u ∈ us, u.columnName ≠ "_id" ∧
      deepEqual u.value
        (baselineValue (setData st1 d).1 u.rowId u.columnName) = false) :
    (∀ i, i < (setData st1 d).1.data.length →
      (setHas (applyCellUpdates us (setData st1 d).1).dirtyRows
          (objGet ((setData st1 d).1.data.getD i []) "_id") = false →
        (applyCellUpdates us (setData st1 d).1).data.getD i [] =
          (setData st1 d).1.data.getD i []) ∧
      (setHas (applyCellUpdates us (setData st1 d).1).dirtyRows
          (objGet ((setData st1 d).1.data.getD i []) "_id") = true →
        deepEqual (.vObj ((applyCellUpdates us (setData st1 d).1).data.getD i []))
          (.vObj ((setData st1 d).1.data.getD i [])) = false)) ∧
      (∀ stx : TState, getDirtyRows (clearDirty stx) = []) := by
  have hinv := applyCellUpdates_dirtyInv (setData st1 d).1 us hpair hus
    (setData st1 d).1 (dirtyInv_base st1 d)
  obtain ⟨_, _, hclean, hdirty⟩ := hinv
  refine ⟨fun i hi => ⟨hclean i hi, hdirty i hi⟩, fun stx => ?_⟩
  exact getDirtyRows_of_nil (clearDirty stx) rfl

/-- C2 counterexample: change row 1's `amt` from 10 to 99 and back to
10.  Every row of the store is again *equal* to its baseline row — no
field differs anywhere — yet `getDirtyRows()` still reports row 1.  The
dirty set is not right-closed, and `getDirtyRows()` is not "exactly the
rows with at least one field differing from the baseline". -/
theorem dirty_set_counterexample :
    (getDirtyRows c2b).map (fun r => objGet r "_id") = [.vNum 1] ∧
      c2b.data.getD 0 [] = st0.data.getD 0 [] ∧
      c2b.data.getD 1 [] = st0.data.getD 1 [] ∧
      c2b.data.length = 2 ∧ st0.dirtyRows = [] :=
  ⟨rfl, rfl, rfl, rfl, rfl⟩

/-- C2 witness: a single genuine edit (row 1's `amt` 10 → 99) leaves
row 1 dirty and indeed not deep-equal to its baseline row. -/
theorem dirty_set_exact_witness :
    deepEqual (.vObj ((applyCellUpdates [⟨.vNum 1, "amt", .vNum 99⟩]
        (setData (emptyState cfgPlain cols0) [rowA, rowB]).1).data.getD 0 []))
      (.vObj ((setData (emptyState cfgPlain cols0)
        [rowA, rowB]).1.data.getD 0 [])) = false :=
  ((dirty_set_exact_amended (emptyState cfgPlain cols0) [rowA, rowB]
      [⟨.vNum 1, "amt", .vNum 99⟩]
      (by
        intro i j hi hj hne
        rw [show (setData (emptyState cfgPlain cols0)
          [rowA, rowB]).1.data.length = 2 from rfl] at hi hj
        interval_cases i <;> interval_cases j <;>
          first
            | exact absurd rfl hne
            | rfl)
      (by
        intro u hu
        simp only [List.mem_singleton] at hu
        subst hu
        exact ⟨by decide, by rfl⟩)).1 0 (by decide)).2 (by rfl)

end DataGrid
